import Mathlib

/-!
Verification development for the flowchart-authoring tool.

This file gives a shallow embedding of the flowchart domain model and the
pure algorithms of the repository (`core/schemas.py`, `core/flow_extractor.py`,
`core/flow_merger.py`, `core/history_mgr.py`, `core/toon_parser.py`,
`core/mermaid_parser.py`, `core/llm_client.py`) and proves the stated
properties about them.

Conventions of the embedding:
- Python lists become Lean `List`s; Python sets that are only used for
  membership tests are kept as `List`s with membership checks.
- Python dicts that preserve insertion order become association lists with
  an order-preserving `dictSet` update.
- Pydantic construction-time validation (`field_validator` on `nodes`)
  becomes `mkFlowchart : ... → Except FlowError Flowchart`; the
  `model_validator` for edge endpoints only emits a warning in the source,
  so it does not affect the result and is not modelled as a failure.
- Python string processing is modelled over `List Char`; regular
  expressions of the source are translated into equivalent explicit
  scanners (each scanner documents the regex it implements).  `\w`, `\d`
  and `\s` are modelled by their ASCII meaning, which covers every
  character class usage in the repository's own data.
-/

namespace IdeaExplain

/-- NodeStatus enum of `core/schemas.py`. -/
inductive NodeStatus where
  | active
  | completed
  | missing
deriving DecidableEq, Repr

/-- String value of a NodeStatus, as in the Python enum. -/
def NodeStatus.value : NodeStatus → String
  | .active => "active"
  | .completed => "completed"
  | .missing => "missing"

/-- Node model of `core/schemas.py`. -/
structure Node where
  id : String
  label : String
  type : String
  status : NodeStatus
  subgraph_id : Option String
deriving DecidableEq, Repr

/-- Edge model of `core/schemas.py`. -/
structure Edge where
  source : String
  target : String
  label : Option String
deriving DecidableEq, Repr

/-- Flowchart model of `core/schemas.py`.  The optional subgraph dict is an
ordered association list `subgraph_id ↦ subgraph_label`. -/
structure Flowchart where
  nodes : List Node
  edges : List Edge
  subgraphs : Option (List (String × String))
deriving DecidableEq, Repr

/-- Error taxonomy (`core/exceptions.py` / `ValueError` used by the
extractor): the error kinds the claims distinguish. -/
inductive FlowError where
  | invalidInput : String → FlowError
  | validation : String → FlowError
  | parseError : String → FlowError
deriving DecidableEq, Repr

/-- Allowed node types (`valid_types` in `Flowchart.validate_flow_structure`). -/
def validTypes : List String :=
  ["start", "end", "process", "decision", "io_data", "storage", "missing"]

/-- `Flowchart.validate_flow_structure` (schemas.py lines 30-53): the four
hard construction invariants, checked in source order. -/
def validateFlowStructure (v : List Node) : Except FlowError Unit :=
  if v = [] then
    .error (.validation "ノードが1つも存在しません")
  else
    let types := v.map (fun n => n.type)
    if "start" ∉ types ∨ "end" ∉ types then
      .error (.validation "開始/終了ノードが必要です")
    else
      let node_ids := v.map (fun n => n.id)
      let duplicates : List String := node_ids.filter (fun i => decide (1 < node_ids.count i))
      if duplicates ≠ [] then
        .error (.validation "ノードIDが重複しています")
      else
        let invalid_types : List String := (v.map (fun n => n.type)).filter
          (fun t => decide (t ∉ validTypes))
        if invalid_types ≠ [] then
          .error (.validation "無効なノードタイプが使用されています")
        else
          .ok ()

/-- Pydantic construction of a `Flowchart`: runs `validate_flow_structure`.
The `validate_edges_reference_nodes` model validator only issues a warning
for unresolved edge endpoints (schemas.py lines 55-75), so edges never make
construction fail. -/
def mkFlowchart (nodes : List Node) (edges : List Edge)
    (subgraphs : Option (List (String × String))) : Except FlowError Flowchart :=
  match validateFlowStructure nodes with
  | .error e => .error e
  | .ok _ => .ok { nodes := nodes, edges := edges, subgraphs := subgraphs }

/-- The ids of the nodes of a flowchart, in order. -/
def Flowchart.nodeIds (f : Flowchart) : List String := f.nodes.map (fun n => n.id)

/-- Number of edges leaving the node id `i` (`outgoing_edges` count). -/
def outCount (edges : List Edge) (i : String) : Nat :=
  (edges.filter (fun e => e.source == i)).length

/-- Number of edges entering the node id `i` (`incoming_edges` count). -/
def inCount (edges : List Edge) (i : String) : Nat :=
  (edges.filter (fun e => e.target == i)).length

/-- The synthesized gap node for an unresolved endpoint id `x`
(schemas.py lines 114-121). -/
def missingNode (x : String) : Node :=
  { id := "missing_" ++ x, label := "未定義: " ++ x, type := "missing",
    status := NodeStatus.missing, subgraph_id := none }

/-- Step 2 of `detect_logic_gaps` (schemas.py lines 107-136): for each edge,
the target endpoint is checked before the source endpoint, and
`processed` records the missing ids already synthesized. -/
def gapsFromEdges (ids : List String) : List Edge → List String → List Node
  | [], _ => []
  | e :: rest, processed =>
    if e.target ∈ ids ∨ ("missing_" ++ e.target) ∈ processed then
      if e.source ∈ ids ∨ ("missing_" ++ e.source) ∈ processed then
        gapsFromEdges ids rest processed
      else
        missingNode e.source :: gapsFromEdges ids rest (("missing_" ++ e.source) :: processed)
    else
      if e.source ∈ ids ∨ ("missing_" ++ e.source) ∈ (("missing_" ++ e.target) :: processed) then
        missingNode e.target ::
          gapsFromEdges ids rest (("missing_" ++ e.target) :: processed)
      else
        missingNode e.target :: missingNode e.source ::
          gapsFromEdges ids rest
            (("missing_" ++ e.source) :: ("missing_" ++ e.target) :: processed)

/-- Step 1 of `detect_logic_gaps` (schemas.py lines 96-105): decision
nodes with at most one outgoing edge. -/
def decisionGapsOf (f : Flowchart) : List Node :=
  f.nodes.filter (fun n =>
    n.type == "decision" && decide (outCount f.edges n.id ≤ 1))

/-- Step 3 of `detect_logic_gaps` (schemas.py lines 138-143): fully
disconnected nodes that are neither `start`- nor `end`-typed. -/
def orphanGapsOf (f : Flowchart) : List Node :=
  f.nodes.filter (fun n =>
    !(n.type == "start") && !(n.type == "end") &&
    decide (outCount f.edges n.id = 0) && decide (inCount f.edges n.id = 0))

/-- `Flowchart.detect_logic_gaps` (schemas.py lines 77-145): decision nodes
with at most one exit, synthesized nodes for unresolved edge endpoints, and
orphan nodes that are neither `start`- nor `end`-typed, in that order. -/
def Flowchart.detect_logic_gaps (f : Flowchart) : List Node :=
  decisionGapsOf f ++ gapsFromEdges f.nodeIds f.edges [] ++ orphanGapsOf f

/-- The overwrite applied to an existing node whose id is in the gap list
(schemas.py lines 173-179): retype to `missing`, keep label and subgraph. -/
def overwriteMissing (n : Node) : Node :=
  { id := n.id, label := n.label, type := "missing", status := NodeStatus.missing,
    subgraph_id := n.subgraph_id }

/-- Replace the first node whose id equals `gid` by its `missing` overwrite
(the `for i, node in enumerate(new_nodes) ... break` loop). -/
def overwriteFirst : List Node → String → List Node
  | [], _ => []
  | n :: rest, gid =>
    if n.id == gid then overwriteMissing n :: rest else n :: overwriteFirst rest gid

/-- The gap-insertion loop of `apply_logic_gap_detection` (schemas.py lines
163-180): append unseen gap nodes, overwrite existing ones to `missing`. -/
def insertGaps : List Node → List String → List Node → List Node × List String
  | nodes, ids, [] => (nodes, ids)
  | nodes, ids, g :: rest =>
    if g.id ∈ ids then insertGaps (overwriteFirst nodes g.id) ids rest
    else insertGaps (nodes ++ [g]) (ids ++ [g.id]) rest

/-- Rewiring of one edge endpoint (schemas.py lines 189-217): an endpoint
that does not resolve is redirected to its `missing_*` node, creating that
node when it does not exist yet. -/
def rewireEnd (nodes : List Node) (ids : List String) (x : String) :
    List Node × List String × String :=
  if x ∈ ids then (nodes, ids, x)
  else
    let m := "missing_" ++ x
    if m ∈ ids then (nodes, ids, m)
    else (nodes ++ [missingNode x], ids ++ [m], m)

/-- The edge-rewiring loop of `apply_logic_gap_detection` (schemas.py lines
184-220): for each edge the source endpoint is processed before the target
endpoint. -/
def rewireEdges : List Node → List String → List Edge →
    List Node × List String × List Edge
  | nodes, ids, [] => (nodes, ids, [])
  | nodes, ids, e :: rest =>
    let r1 := rewireEnd nodes ids e.source
    let r2 := rewireEnd r1.1 r1.2.1 e.target
    let r3 := rewireEdges r2.1 r2.2.1 rest
    (r3.1, r3.2.1, { source := r1.2.2, target := r2.2.2, label := e.label } :: r3.2.2)

/-- `Flowchart.apply_logic_gap_detection` (schemas.py lines 147-222).
When the gap list is empty the flowchart is returned unchanged; otherwise
gap nodes are inserted and dangling edges rewired.  The source rebuilds the
result through the pydantic constructor; nodes and edges are passed through
unchanged by that constructor, which is reflected here by building the
record directly. -/
def Flowchart.apply_logic_gap_detection (f : Flowchart) : Flowchart :=
  let gaps := f.detect_logic_gaps
  if gaps = [] then f
  else
    let ng := insertGaps f.nodes f.nodeIds gaps
    let r := rewireEdges ng.1 ng.2 f.edges
    { nodes := r.1, edges := r.2.2, subgraphs := f.subgraphs }

/-- The reserved anchor ids (`protected_node_ids` in `core/flow_merger.py`,
the excluded ids in `core/flow_extractor.py`). -/
def anchorIds : List String := ["start", "node_end"]

/-- `valid_node_ids` of `FlowExtractor.extract_node_range`
(flow_extractor.py lines 21-22): the requested ids with the anchors
removed. -/
def FlowExtractor.validIds (node_ids : List String) : List String :=
  node_ids.filter (fun nid => decide (nid ∉ anchorIds))

/-- `selected_nodes` of `FlowExtractor.extract_node_range`
(flow_extractor.py line 25). -/
def FlowExtractor.selectedNodes (flowchart : Flowchart) (node_ids : List String) :
    List Node :=
  flowchart.nodes.filter (fun n => decide (n.id ∈ FlowExtractor.validIds node_ids))

/-- `included_ids` of `FlowExtractor.extract_node_range`
(flow_extractor.py lines 31-35): the selected ids plus the force-included
anchors when they exist in the source. -/
def FlowExtractor.includedIds (flowchart : Flowchart) (node_ids : List String) :
    List String :=
  (FlowExtractor.selectedNodes flowchart node_ids).map (fun n => n.id)
  ++ (if ∃ n ∈ flowchart.nodes, n.id = "start" then ["start"] else [])
  ++ (if ∃ n ∈ flowchart.nodes, n.id = "node_end" then ["node_end"] else [])

/-- `FlowExtractor.extract_node_range` (`core/flow_extractor.py` lines 7-49). -/
def FlowExtractor.extract_node_range (flowchart : Flowchart) (node_ids : List String) :
    Except FlowError Flowchart :=
  if FlowExtractor.selectedNodes flowchart node_ids = [] then
    .error (.invalidInput "選択されたノードが見つかりませんでした。")
  else
    mkFlowchart
      (flowchart.nodes.filter (fun n =>
        decide (n.id ∈ FlowExtractor.includedIds flowchart node_ids)))
      (flowchart.edges.filter (fun e =>
        decide (e.source ∈ FlowExtractor.includedIds flowchart node_ids) &&
        decide (e.target ∈ FlowExtractor.includedIds flowchart node_ids)))
      none

/-- Replace the first node with the changed node's id (the update loop of
`FlowMerger.merge_partial_change`, flow_merger.py lines 37-42). -/
def replaceFirstNodeById : List Node → Node → List Node
  | [], _ => []
  | n :: rest, c =>
    if n.id == c.id then c :: rest else n :: replaceFirstNodeById rest c

/-- Replace the first edge with the changed edge's `(source, target)` key,
appending when no key matches (flow_merger.py lines 66-79). -/
def upsertEdge : List Edge → Edge → List Edge
  | [], c => [c]
  | e :: rest, c =>
    if e.source == c.source && e.target == c.target then c :: rest
    else e :: upsertEdge rest c

/-- The skip condition for a changed edge touching an anchor from outside
the selection (flow_merger.py lines 59-64). -/
def edgeProtected (sel : List String) (c : Edge) : Bool :=
  (decide (c.source ∈ anchorIds) && decide (c.target ∉ sel)) ||
  (decide (c.target ∈ anchorIds) && decide (c.source ∉ sel))

/-- One step of the node-update loop of `merge_partial_change`
(flow_merger.py lines 32-42): anchors are skipped, selected ids replace the
first matching node. -/
def FlowMerger.nodeStep (selected_node_ids : List String) (ns : List Node) (c : Node) :
    List Node :=
  if c.id ∈ anchorIds then ns
  else if c.id ∈ selected_node_ids then replaceFirstNodeById ns c
  else ns

/-- One step of the edge-update loop of `merge_partial_change`
(flow_merger.py lines 56-79). -/
def FlowMerger.edgeStep (selected_node_ids : List String) (es : List Edge) (c : Edge) :
    List Edge :=
  if edgeProtected selected_node_ids c then es else upsertEdge es c

/-- `FlowMerger.merge_partial_change` (`core/flow_merger.py` lines 7-85). -/
def FlowMerger.merge_partial_change (original changed : Flowchart)
    (selected_node_ids : List String) : Flowchart :=
  let nodes1 := changed.nodes.foldl (FlowMerger.nodeStep selected_node_ids) original.nodes
  let existing_node_ids := nodes1.map (fun n => n.id)
  let nodes2 := nodes1 ++ changed.nodes.filter (fun c =>
    decide (c.id ∉ anchorIds) && decide (c.id ∉ existing_node_ids))
  let edges2 := changed.edges.foldl (FlowMerger.edgeStep selected_node_ids) original.edges
  { nodes := nodes2, edges := edges2, subgraphs := original.subgraphs }

/-- Order-preserving dict update: existing keys are overwritten in place,
new keys appended (Python dict assignment / `dict.update` semantics). -/
def dictSet (d : List (String × String)) (k v : String) : List (String × String) :=
  match d with
  | [] => [(k, v)]
  | (k0, v0) :: rest => if k0 == k then (k0, v) :: rest else (k0, v0) :: dictSet rest k v

/-- Lookup in an association list built by `dictSet`. -/
def dictGet (d : List (String × String)) (k : String) : Option String :=
  match d.find? (fun kv => kv.1 == k) with
  | some kv => some kv.2
  | none => none

/-- Node merge of `HistoryManager.append_toon_log` (history_mgr.py lines
208-231): every existing node is replaced by the first new node with the
same id when one exists; new nodes whose id is absent from the existing
list are appended. -/
def mergeNodesNewWins (existing newNodes : List Node) : List Node :=
  existing.map (fun e => ((newNodes.find? (fun n => n.id == e.id)).getD e))
  ++ newNodes.filter (fun n => decide (n.id ∉ existing.map (fun e => e.id)))

/-- Edge merge of `HistoryManager.append_toon_log` (history_mgr.py lines
233-260), keyed by the `(source, target)` pair, new edge wins. -/
def mergeEdgesNewWins (existing newEdges : List Edge) : List Edge :=
  existing.map (fun e =>
    ((newEdges.find? (fun c => c.source == e.source && c.target == e.target)).getD e))
  ++ newEdges.filter (fun c =>
    decide ((c.source, c.target) ∉ existing.map (fun e => (e.source, e.target))))

/-- Python truthiness of the optional subgraph dict (`if flow.subgraphs:`):
`None` and the empty dict are falsy. -/
def subgraphsTruthy : Option (List (String × String)) → Bool
  | none => false
  | some l => !l.isEmpty

/-- Subgraph merge of `append_toon_log` (history_mgr.py lines 262-269):
union, new entries overwriting existing keys. -/
def mergeSubgraphs (a b : Option (List (String × String))) :
    Option (List (String × String)) :=
  if subgraphsTruthy a || subgraphsTruthy b then
    some ((b.getD []).foldl (fun d kv => dictSet d kv.1 kv.2) (a.getD []))
  else none

/-- The merged flowchart built by `append_toon_log` before self-repair
(history_mgr.py lines 208-272). -/
def appendToonMergedCore (existing newFlow : Flowchart) : Flowchart :=
  { nodes := mergeNodesNewWins existing.nodes newFlow.nodes,
    edges := mergeEdgesNewWins existing.edges newFlow.edges,
    subgraphs := mergeSubgraphs existing.subgraphs newFlow.subgraphs }

/-- The flowchart returned by `HistoryManager.append_toon_log` (history_mgr.py
lines 198-280), abstracting the file I/O into the optional existing
snapshot: with no snapshot the new flowchart is returned unchanged; with a
snapshot the merge is built and self-repair applied to it. -/
def appendToonLogResult (existingFlow : Option Flowchart) (newFlow : Flowchart) :
    Flowchart :=
  match existingFlow with
  | none => newFlow
  | some ex => (appendToonMergedCore ex newFlow).apply_logic_gap_detection

/-! String-processing infrastructure.  Python string operations and the
regular expressions of the source are modelled over `List Char` with
structural recursion. -/

/-- The whitespace characters of Python's `str.strip` / regex `\s`
(ASCII part). -/
def isPyWhitespace (c : Char) : Bool :=
  c == ' ' || c == '\t' || c == '\n' || c == '\r' || c == '\x0b' || c == '\x0c'

/-- Python `str.strip()` on a character list. -/
def trimChars (l : List Char) : List Char :=
  ((l.dropWhile isPyWhitespace).reverse.dropWhile isPyWhitespace).reverse

/-- Python `str.strip()`. -/
def pyStrip (s : String) : String := String.mk (trimChars s.data)

/-- Python `str.lower()`. -/
def lowerStr (s : String) : String := String.mk (s.data.map Char.toLower)

/-- Python `str.split(sep)` for a single-character separator. -/
def splitOnChar (sep : Char) : List Char → List (List Char)
  | [] => [[]]
  | c :: rest =>
    match splitOnChar sep rest with
    | [] => [[c]]
    | h :: t => if c == sep then [] :: h :: t else (c :: h) :: t

/-- Python `str.split(sep, 1)` for a single-character separator: the part
before the first occurrence, and the remainder when the separator occurs. -/
def splitFirstChar (sep : Char) : List Char → List Char × Option (List Char)
  | [] => ([], none)
  | c :: rest =>
    if c == sep then ([], some rest)
    else
      let r := splitFirstChar sep rest
      (c :: r.1, r.2)

/-- Python `suffix in`-style containment of `other.startswith`: whether
`p` is a prefix of `s`. -/
def strStartsWith (s p : String) : Bool := List.isPrefixOf p.data s.data

/-- Python `str.endswith(suffix)`. -/
def strEndsWith (s suffix : String) : Bool :=
  List.isPrefixOf suffix.data.reverse s.data.reverse

/-- `re.sub(r'```[a-zA-Z]*\n?', '', text)` of `TOONParser.parse`, as a
two-mode scanner: mode `true` is inside the `[a-zA-Z]*\n?` part of a
match. -/
def stripFencesToonAux : Bool → List Char → List Char
  | _, [] => []
  | _, '`' :: '`' :: '`' :: rest => stripFencesToonAux true rest
  | false, c :: rest => c :: stripFencesToonAux false rest
  | true, c :: rest =>
    if c.isAlpha then stripFencesToonAux true rest
    else if c == '\n' then stripFencesToonAux false rest
    else c :: stripFencesToonAux false rest

/-- `re.sub(r'```mermaid\s*\n?', '', text)` of `MermaidParser.parse`, as a
two-mode scanner: mode `true` is inside the trailing `\s*\n?` part (the
greedy `\s*` already absorbs any newline). -/
def stripFencesMermaidAux : Bool → List Char → List Char
  | _, [] => []
  | _, '`' :: '`' :: '`' :: 'm' :: 'e' :: 'r' :: 'm' :: 'a' :: 'i' :: 'd' :: rest =>
    stripFencesMermaidAux true rest
  | false, c :: rest => c :: stripFencesMermaidAux false rest
  | true, c :: rest =>
    if isPyWhitespace c then stripFencesMermaidAux true rest
    else c :: stripFencesMermaidAux false rest

/-- Python `text.replace("```", "")`. -/
def removeTripleBackticks : List Char → List Char
  | [] => []
  | '`' :: '`' :: '`' :: rest => removeTripleBackticks rest
  | c :: rest => c :: removeTripleBackticks rest

/-- Case-insensitive match of a six-character tag at the head of the list. -/
def tag6AtHead (t1 t2 t3 t4 t5 t6 : Char) : List Char → Bool
  | c1 :: c2 :: c3 :: c4 :: c5 :: c6 :: _ =>
    c1.toLower == t1 && c2.toLower == t2 && c3.toLower == t3 &&
    c4.toLower == t4 && c5.toLower == t5 && c6.toLower == t6
  | _ => false

/-- `re.split` on a six-character tag, case-insensitive (used for `[Node]`
and `[Edge]`). -/
def splitTag6Aux (t1 t2 t3 t4 t5 t6 : Char) : List Char → List (List Char)
  | c1 :: c2 :: c3 :: c4 :: c5 :: c6 :: rest =>
    if tag6AtHead t1 t2 t3 t4 t5 t6 (c1 :: c2 :: c3 :: c4 :: c5 :: c6 :: rest) then
      [] :: splitTag6Aux t1 t2 t3 t4 t5 t6 rest
    else
      match splitTag6Aux t1 t2 t3 t4 t5 t6 (c2 :: c3 :: c4 :: c5 :: c6 :: rest) with
      | [] => [[c1]]
      | h :: t => (c1 :: h) :: t
  | cs => [cs]

/-- Case-insensitive match of a ten-character tag at the head of the list. -/
def tag10AtHead (t1 t2 t3 t4 t5 t6 t7 t8 t9 t10 : Char) : List Char → Bool
  | c1 :: c2 :: c3 :: c4 :: c5 :: c6 :: c7 :: c8 :: c9 :: c10 :: _ =>
    c1.toLower == t1 && c2.toLower == t2 && c3.toLower == t3 &&
    c4.toLower == t4 && c5.toLower == t5 && c6.toLower == t6 &&
    c7.toLower == t7 && c8.toLower == t8 && c9.toLower == t9 && c10.toLower == t10
  | _ => false

/-- `re.split` on a ten-character tag, case-insensitive (used for
`[Subgraph]`). -/
def splitTag10Aux (t1 t2 t3 t4 t5 t6 t7 t8 t9 t10 : Char) : List Char → List (List Char)
  | c1 :: c2 :: c3 :: c4 :: c5 :: c6 :: c7 :: c8 :: c9 :: c10 :: rest =>
    if tag10AtHead t1 t2 t3 t4 t5 t6 t7 t8 t9 t10
        (c1 :: c2 :: c3 :: c4 :: c5 :: c6 :: c7 :: c8 :: c9 :: c10 :: rest) then
      [] :: splitTag10Aux t1 t2 t3 t4 t5 t6 t7 t8 t9 t10 rest
    else
      match splitTag10Aux t1 t2 t3 t4 t5 t6 t7 t8 t9 t10
          (c2 :: c3 :: c4 :: c5 :: c6 :: c7 :: c8 :: c9 :: c10 :: rest) with
      | [] => [[c1]]
      | h :: t => (c1 :: h) :: t
  | cs => [cs]

/-- `re.split(r'\[Node\]', text, flags=re.IGNORECASE)`. -/
def splitNodeTag (s : String) : List String :=
  (splitTag6Aux '[' 'n' 'o' 'd' 'e' ']' s.data).map String.mk

/-- `re.split(r'\[Edge\]', text, flags=re.IGNORECASE)`. -/
def splitEdgeTag (s : String) : List String :=
  (splitTag6Aux '[' 'e' 'd' 'g' 'e' ']' s.data).map String.mk

/-- `re.split(r'\[Subgraph\]', text, flags=re.IGNORECASE)`. -/
def splitSubgraphTag (s : String) : List String :=
  (splitTag10Aux '[' 's' 'u' 'b' 'g' 'r' 'a' 'p' 'h' ']' s.data).map String.mk

/-- Join lines with a newline, Python `"\n".flatten(lines)`. -/
def joinNl (ls : List String) : String :=
  String.mk (List.intercalate ['\n'] (ls.map (fun s => s.data)))

/-! TOON text codec. -/

/-- `TOONParser._parse_block` (toon_parser.py lines 74-81) composed with the
`re.split(r'\[', block)[0]` prefix restriction at each call site: parses the
`key: value` lines of a block into an ordered dict. -/
def parseBlockData (block : String) : List (String × String) :=
  let pre := block.data.takeWhile (fun c => !(c == '['))
  (splitOnChar '\n' (trimChars pre)).foldl (fun d lineCs =>
    match splitFirstChar ':' lineCs with
    | (keyCs, some valCs) =>
      dictSet d (String.mk ((trimChars keyCs).map Char.toLower)) (String.mk (trimChars valCs))
    | (_, none) => d) []

/-- One `[Node]` block of `TOONParser.parse` (toon_parser.py lines 30-57). -/
def parseNodeBlock (block : String) : Option Node :=
  let data := parseBlockData block
  match dictGet data "id", dictGet data "label" with
  | some rawId, some rawLabel =>
    let rid := pyStrip rawId
    let safeId := if lowerStr rid == "end" then "node_end" else rid
    let status :=
      match dictGet data "status" with
      | some sv =>
        match lowerStr (pyStrip sv) with
        | "active" => NodeStatus.active
        | "completed" => NodeStatus.completed
        | "missing" => NodeStatus.missing
        | _ => NodeStatus.active
      | none => NodeStatus.active
    let sg := (dictGet data "subgraph").map pyStrip
    some { id := safeId, label := pyStrip rawLabel,
           type := lowerStr (pyStrip ((dictGet data "type").getD "process")),
           status := status, subgraph_id := sg }
  | _, _ => none

/-- One `[Edge]` block of `TOONParser.parse` (toon_parser.py lines 59-66). -/
def parseEdgeBlock (block : String) : Option Edge :=
  let data := parseBlockData block
  match dictGet data "source", dictGet data "target" with
  | some rawS, some rawT =>
    let src := if lowerStr (pyStrip rawS) == "end" then "node_end" else pyStrip rawS
    let tgt := if lowerStr (pyStrip rawT) == "end" then "node_end" else pyStrip rawT
    let lab := pyStrip ((dictGet data "label").getD "")
    some { source := src, target := tgt,
           label := if lab == "" then none else some lab }
  | _, _ => none

/-- One `[Subgraph]` block of `TOONParser.parse` (toon_parser.py lines 17-26). -/
def parseSubgraphBlock (block : String) : Option (String × String) :=
  let data := parseBlockData block
  match dictGet data "id", dictGet data "label" with
  | some i, some l => some (pyStrip i, pyStrip l)
  | _, _ => none

/-- `TOONParser.parse` (`core/toon_parser.py` lines 7-72). -/
def TOONParser.parse (text : String) : Except FlowError Flowchart :=
  let clean := pyStrip (String.mk (removeTripleBackticks (stripFencesToonAux false text.data)))
  let sgBlocks := (splitSubgraphTag clean).drop 1
  let subgraphs : Option (List (String × String)) :=
    if sgBlocks = [] then none
    else some (sgBlocks.foldl (fun d b =>
      match parseSubgraphBlock b with
      | some kv => dictSet d kv.1 kv.2
      | none => d) [])
  let nodes := ((splitNodeTag clean).drop 1).filterMap parseNodeBlock
  let edges := ((splitEdgeTag clean).drop 1).filterMap parseEdgeBlock
  if nodes = [] then
    .error (.parseError "有効なTOON形式のノードが検出されませんでした。")
  else mkFlowchart nodes edges subgraphs

/-- The TOON lines of one node (`Flowchart.to_toon_format`, schemas.py lines
362-372); the `status:` line only when the status is not `active`, the
`subgraph:` line only when the optional field is truthy. -/
def nodeToonLines (n : Node) : List String :=
  ["[Node]", "id: " ++ n.id, "label: " ++ n.label, "type: " ++ n.type]
  ++ (if n.status ≠ NodeStatus.active then ["status: " ++ n.status.value] else [])
  ++ (match n.subgraph_id with
      | some sg => if sg = "" then [] else ["subgraph: " ++ sg]
      | none => [])
  ++ [""]

/-- The TOON lines of one edge (schemas.py lines 374-381); the `label:`
line only when the optional label is truthy. -/
def edgeToonLines (e : Edge) : List String :=
  ["[Edge]", "source: " ++ e.source, "target: " ++ e.target]
  ++ (match e.label with
      | some l => if l = "" then [] else ["label: " ++ l]
      | none => [])
  ++ [""]

/-- `Flowchart.to_toon_format` (schemas.py lines 350-383). -/
def Flowchart.to_toon_format (f : Flowchart) : String :=
  let sgLines : List String :=
    if subgraphsTruthy f.subgraphs then
      ((f.subgraphs.getD []).map (fun kv =>
        ["[Subgraph]", "id: " ++ kv.1, "label: " ++ kv.2, ""])).flatten
    else []
  joinNl (sgLines ++ (f.nodes.map nodeToonLines).flatten ++ (f.edges.map edgeToonLines).flatten)

/-! LLM response classification (`core/llm_client.py`). -/

/-- `re.search` of a six-character tag, case-insensitive. -/
def hasTag6 (t1 t2 t3 t4 t5 t6 : Char) : List Char → Bool
  | [] => false
  | c :: rest =>
    tag6AtHead t1 t2 t3 t4 t5 t6 (c :: rest) || hasTag6 t1 t2 t3 t4 t5 t6 rest

/-- `re.search(r'\[Node\]', text, re.IGNORECASE)` (llm_client.py line 115). -/
def hasNodeTag (s : String) : Bool := hasTag6 '[' 'n' 'o' 'd' 'e' ']' s.data

/-- `re.search(r'\[Edge\]', text, re.IGNORECASE)` (llm_client.py line 119). -/
def hasEdgeTag (s : String) : Bool := hasTag6 '[' 'e' 'd' 'g' 'e' ']' s.data

/-- Plain substring search (used for the literal question patterns). -/
def containsSubAux (pat : List Char) : List Char → Bool
  | [] => pat.isEmpty
  | c :: rest => List.isPrefixOf pat (c :: rest) || containsSubAux pat rest

/-- Plain substring search on strings. -/
def containsSub (s pat : String) : Bool := containsSubAux pat.data s.data

/-- The regex `[？?]\s*$` (a question mark followed only by whitespace up
to the end of the text). -/
def trailingQuestionMark (s : String) : Bool :=
  match s.data.reverse.dropWhile isPyWhitespace with
  | c :: _ => c == '？' || c == '?'
  | [] => false

/-- The `question_patterns` loop of `is_question_response` (llm_client.py
lines 122-141).  Character classes of the regexes are expanded into their
finitely many alternatives; none of the patterns contains cased ASCII, so
`re.IGNORECASE` has no effect on them. -/
def questionPatternsHit (s : String) : Bool :=
  containsSub s "教えてください" ||
  (containsSub s "何ですか？" || containsSub s "何ですか?") ||
  (containsSub s "どのような" || containsSub s "どのように") ||
  (containsSub s "どれが" || containsSub s "どれを") ||
  (containsSub s "いつが" || containsSub s "いつを") ||
  (containsSub s "どこが" || containsSub s "どこを") ||
  containsSub s "なぜ" ||
  containsSub s "どうして" ||
  trailingQuestionMark s ||
  containsSub s "以下の情報" ||
  containsSub s "質問" ||
  containsSub s "確認"

/-- Tail of the numbered-question regex after `\d+[.．]`: checks
`\s*[^。\n]*[？?]` (the scan may stop at the first question mark because
the `[^。\n]*` run can always end right before it). -/
def numberedTailGo : List Char → Bool
  | [] => false
  | c :: rest =>
    if c == '？' || c == '?' then true
    else if c == '。' || c == '\n' then false
    else numberedTailGo rest

/-- Match of `\d+[.．]\s*[^。\n]*[？?]` anchored at the head of the list. -/
def numberedQuestionAt (cs : List Char) : Bool :=
  if (cs.takeWhile Char.isDigit).isEmpty then false
  else
    match cs.dropWhile Char.isDigit with
    | d :: rest =>
      (d == '.' || d == '．') && numberedTailGo (rest.dropWhile isPyWhitespace)
    | [] => false

/-- `re.search(r'\d+[\.．]\s*[^。\n]*[？?]', text)` (llm_client.py lines
144-146). -/
def numberedQuestionSearch : List Char → Bool
  | [] => false
  | c :: rest => numberedQuestionAt (c :: rest) || numberedQuestionSearch rest

/-- `LLMClient.is_question_response` (`core/llm_client.py` lines 101-149). -/
def LLMClient.is_question_response (response_text : String) : Bool :=
  if hasNodeTag response_text then false
  else if hasEdgeTag response_text then false
  else if questionPatternsHit response_text then true
  else if numberedQuestionSearch response_text.data then true
  else false

/-! Mermaid diagram codec, import direction (`core/mermaid_parser.py`). -/

/-- Regex `\w` (ASCII part: letters, digits, underscore). -/
def isWordChar (c : Char) : Bool := c.isAlphanum || c == '_'

/-- Quote character class `["\']` of the node/edge patterns. -/
def isQuoteChar (c : Char) : Bool := c == '"' || c.toNat == 39

/-- Match `\w+` at the head, returning the matched word and the rest. -/
def pWord (cs : List Char) : Option (String × List Char) :=
  let w := cs.takeWhile isWordChar
  if w.isEmpty then none else some (String.mk w, cs.dropWhile isWordChar)

/-- Match one literal character at the head. -/
def pChar (c : Char) : List Char → Option (List Char)
  | x :: rest => if x == c then some rest else none
  | [] => none

/-- Match one character of the quote class at the head. -/
def pQuote : List Char → Option (List Char)
  | x :: rest => if isQuoteChar x then some rest else none
  | [] => none

/-- Match a nonempty greedy run of class characters (`[...]+`); sound here
because every use site follows the class with a character excluded from
it. -/
def pClassPlus (p : Char → Bool) (cs : List Char) : Option (String × List Char) :=
  let run := cs.takeWhile p
  if run.isEmpty then none else some (String.mk run, cs.dropWhile p)

/-- Regex `(\w+)\[\(["\']([^"\']+)["\']\)\]` — quoted cylinder. -/
def nodePatCylinderQ (cs : List Char) : Option (String × String) := do
  let (w, r0) ← pWord cs
  let r1 ← pChar '[' r0
  let r2 ← pChar '(' r1
  let r3 ← pQuote r2
  let (lab, r4) ← pClassPlus (fun c => !isQuoteChar c) r3
  let r5 ← pQuote r4
  let r6 ← pChar ')' r5
  let _ ← pChar ']' r6
  some (w, lab)

/-- Regex `(\w+)\[/["\']([^"\']+)["\']/\]` — quoted parallelogram. -/
def nodePatParallelogramQ (cs : List Char) : Option (String × String) := do
  let (w, r0) ← pWord cs
  let r1 ← pChar '[' r0
  let r2 ← pChar '/' r1
  let r3 ← pQuote r2
  let (lab, r4) ← pClassPlus (fun c => !isQuoteChar c) r3
  let r5 ← pQuote r4
  let r6 ← pChar '/' r5
  let _ ← pChar ']' r6
  some (w, lab)

/-- Regex `(\w+)\[["\']([^"\']+)["\']\]` — quoted box. -/
def nodePatBoxQ (cs : List Char) : Option (String × String) := do
  let (w, r0) ← pWord cs
  let r1 ← pChar '[' r0
  let r2 ← pQuote r1
  let (lab, r3) ← pClassPlus (fun c => !isQuoteChar c) r2
  let r4 ← pQuote r3
  let _ ← pChar ']' r4
  some (w, lab)

/-- Regex `(\w+)\{["\']([^"\']+)["\']\}` — quoted brace. -/
def nodePatBraceQ (cs : List Char) : Option (String × String) := do
  let (w, r0) ← pWord cs
  let r1 ← pChar '{' r0
  let r2 ← pQuote r1
  let (lab, r3) ← pClassPlus (fun c => !isQuoteChar c) r2
  let r4 ← pQuote r3
  let _ ← pChar '}' r4
  some (w, lab)

/-- Regex `(\w+)\[\(([^)]+)\)\]` — bare cylinder. -/
def nodePatCylinder (cs : List Char) : Option (String × String) := do
  let (w, r0) ← pWord cs
  let r1 ← pChar '[' r0
  let r2 ← pChar '(' r1
  let (lab, r3) ← pClassPlus (fun c => !(c == ')')) r2
  let r4 ← pChar ')' r3
  let _ ← pChar ']' r4
  some (w, lab)

/-- Regex `(\w+)\[([^\]]+)\]` — bare box. -/
def nodePatBox (cs : List Char) : Option (String × String) := do
  let (w, r0) ← pWord cs
  let r1 ← pChar '[' r0
  let (lab, r2) ← pClassPlus (fun c => !(c == ']')) r1
  let _ ← pChar ']' r2
  some (w, lab)

/-- Regex `(\w+)\{([^}]+)\}` — bare brace. -/
def nodePatBrace (cs : List Char) : Option (String × String) := do
  let (w, r0) ← pWord cs
  let r1 ← pChar '{' r0
  let (lab, r2) ← pClassPlus (fun c => !(c == '}')) r1
  let _ ← pChar '}' r2
  some (w, lab)

/-- The `node_patterns` list of `MermaidParser.parse` (mermaid_parser.py
lines 51-59), tried in source order with `re.match`. -/
def tryNodePatterns (cs : List Char) : Option (String × String) :=
  (nodePatCylinderQ cs).orElse (fun _ =>
  (nodePatParallelogramQ cs).orElse (fun _ =>
  (nodePatBoxQ cs).orElse (fun _ =>
  (nodePatBraceQ cs).orElse (fun _ =>
  (nodePatCylinder cs).orElse (fun _ =>
  (nodePatBox cs).orElse (fun _ =>
  nodePatBrace cs))))))

/-- Regex `(\w+)\s*-->\s*\|\s*["\']([^"\']+)["\']\s*\|\s*(\w+)` — labeled
edge. -/
def edgePatLabeled (cs : List Char) : Option (String × Option String × String) := do
  let (w1, r0) ← pWord cs
  let r1 ← pChar '-' (r0.dropWhile isPyWhitespace)
  let r2 ← pChar '-' r1
  let r3 ← pChar '>' r2
  let r4 ← pChar '|' (r3.dropWhile isPyWhitespace)
  let r5 ← pQuote (r4.dropWhile isPyWhitespace)
  let (lab, r6) ← pClassPlus (fun c => !isQuoteChar c) r5
  let r7 ← pQuote r6
  let r8 ← pChar '|' (r7.dropWhile isPyWhitespace)
  let (w2, _) ← pWord (r8.dropWhile isPyWhitespace)
  some (w1, some lab, w2)

/-- Regex `(\w+)\s*-->\s*(\w+)` — unlabeled edge. -/
def edgePatPlain (cs : List Char) : Option (String × Option String × String) := do
  let (w1, r0) ← pWord cs
  let r1 ← pChar '-' (r0.dropWhile isPyWhitespace)
  let r2 ← pChar '-' r1
  let r3 ← pChar '>' r2
  let (w2, _) ← pWord (r3.dropWhile isPyWhitespace)
  some (w1, none, w2)

/-- The `edge_patterns` list (mermaid_parser.py lines 104-107), labeled
pattern tried first. -/
def tryEdgePatterns (cs : List Char) : Option (String × Option String × String) :=
  (edgePatLabeled cs).orElse (fun _ => edgePatPlain cs)

/-- Node-type inference from the shape characters of the line
(mermaid_parser.py lines 68-82); `nodesSoFar` is the node list built so
far (`not nodes` in the source). -/
def inferNodeType (lineCs : List Char) (nodesSoFar : List Node) (nodeId : String) :
    String :=
  if lineCs.contains '{' && lineCs.contains '}' then "decision"
  else if lineCs.contains '(' && lineCs.contains ')' then
    if nodeId == "start" || (nodesSoFar.isEmpty && !(nodeId == "node_end")) then "start"
    else if nodeId == "node_end" || strEndsWith nodeId "_end" then "end"
    else "process"
  else if lineCs.contains '/' then "io_data"
  else "process"

/-- Processing of one (already stripped, nonempty) line of the Mermaid scan
loop (mermaid_parser.py lines 32-129). -/
def mermaidStep (st : List Node × List Edge) (line : String) : List Node × List Edge :=
  let nodes := st.1
  let edges := st.2
  if strStartsWith line "%%" then st
  else if strStartsWith line "style " then st
  else if strStartsWith line "subgraph " then st
  else if line == "end" then st
  else
    match tryNodePatterns line.data with
    | some idLab =>
      let nodeType := inferNodeType line.data nodes idLab.1
      let safeId := if lowerStr idLab.1 == "end" then "node_end" else idLab.1
      if safeId ∈ nodes.map (fun n => n.id) then st
      else (nodes ++ [{ id := safeId, label := pyStrip idLab.2, type := nodeType,
                        status := NodeStatus.active, subgraph_id := none }], edges)
    | none =>
      match tryEdgePatterns line.data with
      | some se =>
        let safeSource := if lowerStr se.1 == "end" then "node_end" else se.1
        let safeTarget := if lowerStr se.2.2 == "end" then "node_end" else se.2.2
        (nodes, edges ++ [{ source := safeSource, target := safeTarget,
                            label := se.2.1.map pyStrip }])
      | none => st

/-- The line scan of `MermaidParser.parse`: fence stripping, line splitting
and the per-line loop (mermaid_parser.py lines 20-129). -/
def MermaidParser.scan (mermaid_text : String) : List Node × List Edge :=
  let clean := pyStrip (String.mk (removeTripleBackticks
    (stripFencesMermaidAux false mermaid_text.data)))
  let lines := ((splitOnChar '\n' clean.data).map (fun l => String.mk (trimChars l))).filter
    (fun l => !(l == ""))
  lines.foldl mermaidStep ([], [])

/-- Retype the first node whose id is `node_end` to `end` (the
`next((n for n in nodes if n.id == "node_end"), None)` mutation,
mermaid_parser.py lines 144-146). -/
def retypeFirstNodeEndId : List Node → List Node
  | [] => []
  | n :: rest =>
    if n.id == "node_end" then { n with type := "end" } :: rest
    else n :: retypeFirstNodeEndId rest

/-- Retype the last node to `end` (`nodes[-1].type = "end"`). -/
def setLastTypeEnd : List Node → List Node
  | [] => []
  | [n] => [{ n with type := "end" }]
  | n :: rest => n :: setLastTypeEnd rest

/-- The start/end fallback retyping and final construction of
`MermaidParser.parse` (mermaid_parser.py lines 135-152).  The set of
present node types is computed once, before either mutation. -/
def mermaidFinalize (nodes : List Node) (edges : List Edge) :
    Except FlowError Flowchart :=
  let node_types := nodes.map (fun n => n.type)
  let nodes1 :=
    if "start" ∈ node_types then nodes
    else
      match nodes with
      | [] => []
      | n :: rest => { n with type := "start" } :: rest
  let nodes2 :=
    if "end" ∈ node_types then nodes1
    else
      if nodes1.any (fun n => n.id == "node_end") then retypeFirstNodeEndId nodes1
      else setLastTypeEnd nodes1
  mkFlowchart nodes2 edges none

/-- `MermaidParser.parse` (`core/mermaid_parser.py` lines 9-152). -/
def MermaidParser.parse (mermaid_text : String) : Except FlowError Flowchart :=
  let scanned := MermaidParser.scan mermaid_text
  if scanned.1 = [] then
    .error (.parseError "Mermaid形式のノードが検出されませんでした。")
  else mermaidFinalize scanned.1 scanned.2

/-! Concrete fixtures used by witnesses and counterexamples. -/

/-- The three-step flow `start → process1 → node_end` with no optional
fields set. -/
def flowStartProc1End : Flowchart :=
  { nodes := [
      { id := "start", label := "開始", type := "start", status := .active, subgraph_id := none },
      { id := "process1", label := "処理1", type := "process", status := .active, subgraph_id := none },
      { id := "node_end", label := "終了", type := "end", status := .active, subgraph_id := none }],
    edges := [
      { source := "start", target := "process1", label := none },
      { source := "process1", target := "node_end", label := none }],
    subgraphs := none }

/-- The four-node chain `start → a → b → node_end`. -/
def chainFlow : Flowchart :=
  { nodes := [
      { id := "start", label := "開始", type := "start", status := .active, subgraph_id := none },
      { id := "a", label := "A", type := "process", status := .active, subgraph_id := none },
      { id := "b", label := "B", type := "process", status := .active, subgraph_id := none },
      { id := "node_end", label := "終了", type := "end", status := .active, subgraph_id := none }],
    edges := [
      { source := "start", target := "a", label := none },
      { source := "a", target := "b", label := none },
      { source := "b", target := "node_end", label := none }],
    subgraphs := none }

/-- The three-step flow with an edge whose target `ghost` resolves to no
node. -/
def danglingFlow : Flowchart :=
  { nodes := flowStartProc1End.nodes,
    edges := [
      { source := "start", target := "ghost", label := none },
      { source := "process1", target := "node_end", label := none }],
    subgraphs := none }

/-- A valid flowchart whose start- and end-typed nodes do not sit on the
anchor ids `start`/`node_end`. -/
def offAnchorFlow : Flowchart :=
  { nodes := [
      { id := "s", label := "S", type := "start", status := .active, subgraph_id := none },
      { id := "e", label := "E", type := "end", status := .active, subgraph_id := none },
      { id := "a", label := "A", type := "process", status := .active, subgraph_id := none }],
    edges := [
      { source := "s", target := "a", label := none },
      { source := "a", target := "e", label := none }],
    subgraphs := none }

/-! Specification-level predicates used in theorem statements. -/

/-- The included-id set of the extractor, in the claim's terms: a requested
non-anchor id that exists in the source, or an anchor id present in the
source. -/
def extractIncluded (f : Flowchart) (req : List String) (x : String) : Prop :=
  (x ∈ f.nodeIds ∧ x ∈ req ∧ x ∉ anchorIds) ∨
  (x = "start" ∧ "start" ∈ f.nodeIds) ∨
  (x = "node_end" ∧ "node_end" ∈ f.nodeIds)

instance (f : Flowchart) (req : List String) (x : String) :
    Decidable (extractIncluded f req x) := by
  unfold extractIncluded
  infer_instance

/-- The four construction invariants of `validate_flow_structure`, as a
predicate: nonempty, start and end types present, unique ids, valid types. -/
def GoodNodes (v : List Node) : Prop :=
  v ≠ [] ∧ "start" ∈ v.map (fun n => n.type) ∧ "end" ∈ v.map (fun n => n.type) ∧
  (v.map (fun n => n.id)).Nodup ∧ ∀ n ∈ v, n.type ∈ validTypes

/-- Every edge endpoint resolves to an existing node id. -/
def Flowchart.EdgesResolved (f : Flowchart) : Prop :=
  ∀ e ∈ f.edges, e.source ∈ f.nodeIds ∧ e.target ∈ f.nodeIds

/-- Every decision node has at least two outgoing edges. -/
def Flowchart.DecisionsBranched (f : Flowchart) : Prop :=
  ∀ n ∈ f.nodes, n.type = "decision" → 2 ≤ outCount f.edges n.id

/-- No non-anchor-typed node is fully disconnected. -/
def Flowchart.NoOrphans (f : Flowchart) : Prop :=
  ∀ n ∈ f.nodes, n.type ≠ "start" → n.type ≠ "end" →
    ¬(outCount f.edges n.id = 0 ∧ inCount f.edges n.id = 0)

/-- A node already carrying the `missing` marking of self-repair. -/
def missingTyped (n : Node) : Prop := n.type = "missing" ∧ n.status = NodeStatus.missing

/-- Weakening of `NoOrphans` that self-repair establishes: any remaining
non-anchor orphan is already marked `missing`. -/
def Flowchart.OrphansMarked (f : Flowchart) : Prop :=
  ∀ n ∈ f.nodes, n.type ≠ "start" → n.type ≠ "end" →
    outCount f.edges n.id = 0 → inCount f.edges n.id = 0 → missingTyped n

/-- The endpoint rewrite performed by the rewiring loop of
`apply_logic_gap_detection` once every missing node has been materialized:
an endpoint outside `ids` is redirected to its `missing_*` id. -/
def rewriteEdge (ids : List String) (e : Edge) : Edge :=
  { source := if e.source ∈ ids then e.source else "missing_" ++ e.source,
    target := if e.target ∈ ids then e.target else "missing_" ++ e.target,
    label := e.label }

/-- The id list and the node list carry the same id set (the relation
between `existing_ids` and `new_nodes` in `apply_logic_gap_detection`). -/
def IdsOK (ns : List Node) (ids : List String) : Prop :=
  ∀ x, x ∈ ids ↔ x ∈ ns.map (fun n => n.id)

/-- Every node of the list carrying id `x` is marked `missing`. -/
def MarkedAt (ns : List Node) (x : String) : Prop :=
  ∀ m ∈ ns, m.id = x → missingTyped m

/-! Theorems.  First the construction-validation facts shared by several
claims. -/

theorem exists_dup_iff_not_nodup (l : List String) :
    (∃ i ∈ l, 1 < l.count i) ↔ ¬ l.Nodup := by
  rw [List.nodup_iff_count_le_one]
  constructor
  · rintro ⟨i, _, h⟩ hn
    exact absurd (hn i) (by omega)
  · intro h
    push_neg at h
    obtain ⟨a, ha⟩ := h
    refine ⟨a, ?_, ha⟩
    have : 0 < l.count a := by omega
    exact List.count_pos_iff.mp this

theorem validateFlowStructure_ok_iff (v : List Node) :
    validateFlowStructure v = .ok () ↔ GoodNodes v := by
  unfold validateFlowStructure GoodNodes
  by_cases h1 : v = []
  · rw [if_pos h1]
    simp only [reduceCtorEq, false_iff]
    rintro ⟨hne, -⟩
    exact hne h1
  · rw [if_neg h1]
    by_cases h2 : "start" ∉ v.map (fun n => n.type) ∨ "end" ∉ v.map (fun n => n.type)
    · rw [if_pos h2]
      simp only [reduceCtorEq, false_iff]
      rintro ⟨-, hs, he, -⟩
      rcases h2 with h | h
      · exact h hs
      · exact h he
    · rw [if_neg h2]
      push_neg at h2
      by_cases h3 : (v.map (fun n => n.id)).filter
          (fun i => decide (1 < (v.map (fun n => n.id)).count i)) ≠ []
      · rw [if_pos h3]
        simp only [reduceCtorEq, false_iff]
        rintro ⟨-, -, -, hnd, -⟩
        rw [Ne, List.filter_eq_nil_iff] at h3
        push_neg at h3
        obtain ⟨i, hi, hcount⟩ := h3
        simp only [decide_eq_true_eq] at hcount
        exact (exists_dup_iff_not_nodup _).mp ⟨i, hi, hcount⟩ hnd
      · rw [if_neg h3]
        by_cases h4 : (v.map (fun n => n.type)).filter (fun t => decide (t ∉ validTypes)) ≠ []
        · rw [if_pos h4]
          simp only [reduceCtorEq, false_iff]
          rintro ⟨-, -, -, -, htypes⟩
          rw [Ne, List.filter_eq_nil_iff] at h4
          push_neg at h4
          obtain ⟨t, ht, hbad⟩ := h4
          simp only [decide_eq_true_eq] at hbad
          obtain ⟨n, hn, rfl⟩ := List.mem_map.mp ht
          exact hbad (htypes n hn)
        · rw [if_neg h4]
          simp only [true_iff]
          push_neg at h3 h4
          refine ⟨h1, h2.1, h2.2, ?_, ?_⟩
          · by_contra hnd
            obtain ⟨i, hi, hcount⟩ := (exists_dup_iff_not_nodup _).mpr hnd
            have := List.filter_eq_nil_iff.mp h3 i hi
            simp only [decide_eq_true_eq] at this
            exact this hcount
          · intro n hn
            by_contra hbad
            have := List.filter_eq_nil_iff.mp h4 n.type (List.mem_map.mpr ⟨n, hn, rfl⟩)
            simp only [decide_eq_true_eq] at this
            exact this hbad

theorem validateFlowStructure_cases (v : List Node) :
    validateFlowStructure v = .ok () ∨
      ∃ msg, validateFlowStructure v = .error (.validation msg) := by
  simp only [validateFlowStructure]
  split_ifs
  all_goals first
    | exact Or.inl rfl
    | exact Or.inr ⟨_, rfl⟩

theorem mkFlowchart_ok_iff (ns : List Node) (es : List Edge)
    (sg : Option (List (String × String))) :
    mkFlowchart ns es sg = .ok ⟨ns, es, sg⟩ ↔ GoodNodes ns := by
  rw [← validateFlowStructure_ok_iff]
  unfold mkFlowchart
  cases h : validateFlowStructure ns with
  | ok u => cases u; simp
  | error e => simp

theorem mkFlowchart_error_iff (ns : List Node) (es : List Edge)
    (sg : Option (List (String × String))) :
    (∃ msg, mkFlowchart ns es sg = .error (.validation msg)) ↔ ¬ GoodNodes ns := by
  constructor
  · rintro ⟨msg, hm⟩ hg
    have hok := (validateFlowStructure_ok_iff ns).mpr hg
    unfold mkFlowchart at hm
    rw [hok] at hm
    exact absurd hm (by simp)
  · intro hg
    rcases validateFlowStructure_cases ns with hok | ⟨msg, herr⟩
    · exact absurd ((validateFlowStructure_ok_iff ns).mp hok) hg
    · exact ⟨msg, by unfold mkFlowchart; rw [herr]⟩

/-- C2: Flowchart construction raises a Validation error exactly when one of
the four hard invariants is violated (zero nodes, missing start or end type,
duplicate node ids, or an invalid node type); edge endpoints play no role,
so a flowchart with unresolved edge endpoints is still constructed
successfully. -/
theorem C2_construction_validation (nodes : List Node) (edges : List Edge)
    (sg : Option (List (String × String))) :
    ((∃ msg, mkFlowchart nodes edges sg = .error (.validation msg)) ↔
      (nodes = [] ∨ "start" ∉ nodes.map (fun n => n.type) ∨
        "end" ∉ nodes.map (fun n => n.type) ∨ ¬(nodes.map (fun n => n.id)).Nodup ∨
        ∃ n ∈ nodes, n.type ∉ validTypes))
    ∧ ((nodes ≠ [] ∧ "start" ∈ nodes.map (fun n => n.type) ∧
        "end" ∈ nodes.map (fun n => n.type) ∧ (nodes.map (fun n => n.id)).Nodup ∧
        ∀ n ∈ nodes, n.type ∈ validTypes) →
      mkFlowchart nodes edges sg = .ok ⟨nodes, edges, sg⟩) := by
  constructor
  · rw [mkFlowchart_error_iff]
    unfold GoodNodes
    constructor
    · intro h
      by_contra hc
      push_neg at hc
      exact h ⟨hc.1, hc.2.1, hc.2.2.1, hc.2.2.2.1, hc.2.2.2.2⟩
    · intro h hg
      rcases h with h | h | h | h | ⟨n, hn, ht⟩
      · exact hg.1 h
      · exact h hg.2.1
      · exact h hg.2.2.1
      · exact h hg.2.2.2.1
      · exact ht (hg.2.2.2.2 n hn)
  · intro h
    exact (mkFlowchart_ok_iff nodes edges sg).mpr h

/-- Witness for C2: a three-node flowchart with an unresolved edge endpoint
is constructed successfully, and the empty node list yields a Validation
error. -/
theorem C2_construction_validation_witness :
    mkFlowchart
      [⟨"start", "開始", "start", .active, none⟩,
       ⟨"a", "A", "process", .active, none⟩,
       ⟨"node_end", "終了", "end", .active, none⟩]
      [⟨"start", "ghost", none⟩] none
      = .ok ⟨[⟨"start", "開始", "start", .active, none⟩,
              ⟨"a", "A", "process", .active, none⟩,
              ⟨"node_end", "終了", "end", .active, none⟩],
             [⟨"start", "ghost", none⟩], none⟩
    ∧ (∃ msg, mkFlowchart [] [] none = .error (.validation msg)) := by
  constructor
  · exact (C2_construction_validation _ _ _).2 (by decide)
  · exact (C2_construction_validation [] [] none).1.mpr (Or.inl rfl)

/-! The flow extractor (claims C5 and C9). -/

theorem mkFlowchart_ne_invalidInput (ns : List Node) (es : List Edge)
    (sg : Option (List (String × String))) (msg : String) :
    mkFlowchart ns es sg ≠ .error (.invalidInput msg) := by
  unfold mkFlowchart
  rcases validateFlowStructure_cases ns with hok | ⟨m, herr⟩
  · rw [hok]
    simp
  · rw [herr]
    simp

theorem selectedNodes_eq_nil_iff (f : Flowchart) (req : List String) :
    FlowExtractor.selectedNodes f req = [] ↔
      ∀ n ∈ f.nodes, ¬(n.id ∈ req ∧ n.id ∉ anchorIds) := by
  unfold FlowExtractor.selectedNodes FlowExtractor.validIds
  rw [List.filter_eq_nil_iff]
  simp only [decide_eq_true_eq, List.mem_filter]

theorem mem_includedIds_iff (f : Flowchart) (req : List String) (x : String) :
    x ∈ FlowExtractor.includedIds f req ↔ extractIncluded f req x := by
  unfold FlowExtractor.includedIds FlowExtractor.selectedNodes FlowExtractor.validIds
    extractIncluded Flowchart.nodeIds
  by_cases hs : ∃ n ∈ f.nodes, n.id = "start" <;>
    by_cases he : ∃ n ∈ f.nodes, n.id = "node_end" <;>
      simp only [hs, he, if_true, if_false, List.mem_append, List.mem_map,
        List.mem_filter, decide_eq_true_eq, List.mem_singleton,
        List.not_mem_nil, or_false] <;>
      aesop

theorem extract_node_range_ok (f : Flowchart) (req : List String)
    (hnd : f.nodeIds.Nodup) (hty : ∀ n ∈ f.nodes, n.type ∈ validTypes)
    (hs : ∃ n ∈ f.nodes, n.id = "start" ∧ n.type = "start")
    (he : ∃ n ∈ f.nodes, n.id = "node_end" ∧ n.type = "end")
    (hsel : ∃ n ∈ f.nodes, n.id ∈ req ∧ n.id ∉ anchorIds) :
    FlowExtractor.extract_node_range f req = .ok
      ⟨f.nodes.filter (fun n => decide (n.id ∈ FlowExtractor.includedIds f req)),
       f.edges.filter (fun e =>
         decide (e.source ∈ FlowExtractor.includedIds f req) &&
         decide (e.target ∈ FlowExtractor.includedIds f req)),
       none⟩ := by
  obtain ⟨n0, hn0, hn0r, hn0a⟩ := hsel
  obtain ⟨ns, hnsmem, hnsid, hnsty⟩ := hs
  obtain ⟨ne, hnemem, hneid, hnety⟩ := he
  have hne : ¬ FlowExtractor.selectedNodes f req = [] := by
    rw [selectedNodes_eq_nil_iff]
    push_neg
    exact ⟨n0, hn0, hn0r, hn0a⟩
  unfold FlowExtractor.extract_node_range
  rw [if_neg hne]
  apply (mkFlowchart_ok_iff _ _ _).mpr
  have hsmem : ns ∈ f.nodes.filter
      (fun n => decide (n.id ∈ FlowExtractor.includedIds f req)) := by
    rw [List.mem_filter]
    refine ⟨hnsmem, ?_⟩
    rw [decide_eq_true_eq, mem_includedIds_iff]
    exact Or.inr (Or.inl ⟨hnsid, List.mem_map.mpr ⟨ns, hnsmem, hnsid⟩⟩)
  have hemem : ne ∈ f.nodes.filter
      (fun n => decide (n.id ∈ FlowExtractor.includedIds f req)) := by
    rw [List.mem_filter]
    refine ⟨hnemem, ?_⟩
    rw [decide_eq_true_eq, mem_includedIds_iff]
    exact Or.inr (Or.inr ⟨hneid, List.mem_map.mpr ⟨ne, hnemem, hneid⟩⟩)
  refine ⟨List.ne_nil_of_mem hsmem, ?_, ?_, ?_, ?_⟩
  · exact List.mem_map.mpr ⟨ns, hsmem, hnsty⟩
  · exact List.mem_map.mpr ⟨ne, hemem, hnety⟩
  · exact hnd.sublist (List.Sublist.map _ (List.filter_sublist f.nodes))
  · intro n hn
    exact hty n (List.mem_filter.mp hn).1

theorem extract_node_range_invalid_iff (f : Flowchart) (req : List String) :
    (∃ msg, FlowExtractor.extract_node_range f req = .error (.invalidInput msg)) ↔
      ∀ n ∈ f.nodes, ¬(n.id ∈ req ∧ n.id ∉ anchorIds) := by
  rw [← selectedNodes_eq_nil_iff]
  unfold FlowExtractor.extract_node_range
  by_cases hsel : FlowExtractor.selectedNodes f req = []
  · rw [if_pos hsel]
    simp only [hsel, iff_true]
    exact ⟨_, rfl⟩
  · rw [if_neg hsel]
    simp only [hsel, iff_false, not_exists]
    intro msg
    exact mkFlowchart_ne_invalidInput _ _ _ msg

/-- C5 (counterexample to the claim as stated): on a valid source flowchart
whose start/end-typed nodes do not carry the anchor ids, a request selecting
the existing non-anchor node `a` makes `extract_node_range` fail with a
Validation error instead of returning the described flowchart, even though
the selection is nonempty (so the claim's InvalidInput clause does not
apply). -/
theorem C5_extract_counterexample :
    FlowExtractor.extract_node_range offAnchorFlow ["a"]
        = .error (.validation "開始/終了ノードが必要です")
    ∧ FlowExtractor.selectedNodes offAnchorFlow ["a"] ≠ [] := by
  constructor
  · rfl
  · decide

/-- C5 (amended): provided the source flowchart satisfies the construction
invariants and carries its start-typed node on id `start` and its end-typed
node on id `node_end`, a request selecting at least one existing non-anchor
node makes `extract_node_range` return exactly the source nodes restricted
in order to the included-id set (requested non-anchor ids existing in the
source plus the present anchors), the source edges with both endpoints in
that set, and no subgraph mapping; and for every source and request,
`extract_node_range` fails with an InvalidInput error exactly when the
requested ids, after removing anchors and ids absent from the source,
select no node. -/
theorem C5_extract_node_range :
    (∀ (f : Flowchart) (req : List String),
      f.nodeIds.Nodup → (∀ n ∈ f.nodes, n.type ∈ validTypes) →
      (∃ n ∈ f.nodes, n.id = "start" ∧ n.type = "start") →
      (∃ n ∈ f.nodes, n.id = "node_end" ∧ n.type = "end") →
      (∃ n ∈ f.nodes, n.id ∈ req ∧ n.id ∉ anchorIds) →
      FlowExtractor.extract_node_range f req = .ok
        ⟨f.nodes.filter (fun n => decide (extractIncluded f req n.id)),
         f.edges.filter (fun e =>
           decide (extractIncluded f req e.source) &&
           decide (extractIncluded f req e.target)),
         none⟩)
    ∧ (∀ (f : Flowchart) (req : List String),
        (∃ msg, FlowExtractor.extract_node_range f req = .error (.invalidInput msg)) ↔
          ∀ n ∈ f.nodes, ¬(n.id ∈ req ∧ n.id ∉ anchorIds)) := by
  constructor
  · intro f req hnd hty hs he hsel
    rw [extract_node_range_ok f req hnd hty hs he hsel]
    have hn : ∀ n ∈ f.nodes,
        (decide (n.id ∈ FlowExtractor.includedIds f req)) =
        (decide (extractIncluded f req n.id)) := by
      intro n _
      simp only [decide_eq_decide]
      exact mem_includedIds_iff f req n.id
    have he' : ∀ e ∈ f.edges,
        (decide (e.source ∈ FlowExtractor.includedIds f req) &&
         decide (e.target ∈ FlowExtractor.includedIds f req)) =
        (decide (extractIncluded f req e.source) &&
         decide (extractIncluded f req e.target)) := by
      intro e _
      simp only [decide_eq_decide.mpr (mem_includedIds_iff f req e.source),
        decide_eq_decide.mpr (mem_includedIds_iff f req e.target)]
    rw [List.filter_congr hn, List.filter_congr he']
  · exact extract_node_range_invalid_iff

/-- Witness for C5 (amended): concrete extraction from the chain
`start → a → b → node_end` keeps exactly `{start, a, node_end}` and the
single edge `start → a`, and a request hitting no node yields the
InvalidInput error. -/
theorem C5_extract_node_range_witness :
    FlowExtractor.extract_node_range chainFlow ["start", "a", "node_end"] = .ok
      ⟨chainFlow.nodes.filter (fun n =>
         decide (extractIncluded chainFlow ["start", "a", "node_end"] n.id)),
       chainFlow.edges.filter (fun e =>
         decide (extractIncluded chainFlow ["start", "a", "node_end"] e.source) &&
         decide (extractIncluded chainFlow ["start", "a", "node_end"] e.target)),
       none⟩
    ∧ (∃ msg, FlowExtractor.extract_node_range chainFlow ["zzz"]
        = .error (.invalidInput msg)) := by
  constructor
  · exact C5_extract_node_range.1 chainFlow ["start", "a", "node_end"]
      (by decide) (by decide) (by decide) (by decide) (by decide)
  · exact (C5_extract_node_range.2 chainFlow ["zzz"]).mpr (by decide)

/-- C9: when the source flowchart is valid and carries its start-typed node
on the anchor id `start` and its end-typed node on the anchor id
`node_end`, extraction of any request hitting at least one existing
non-anchor node succeeds and the result satisfies every construction
invariant; and when the start/end types sit on other ids, the Validation
error branch of the constructor inside `extract_node_range` is reachable. -/
theorem C9_extract_anchor_safety :
    (∀ (f : Flowchart) (req : List String),
      f.nodeIds.Nodup → (∀ n ∈ f.nodes, n.type ∈ validTypes) →
      (∃ n ∈ f.nodes, n.id = "start" ∧ n.type = "start") →
      (∃ n ∈ f.nodes, n.id = "node_end" ∧ n.type = "end") →
      (∃ n ∈ f.nodes, n.id ∈ req ∧ n.id ∉ anchorIds) →
      ∃ g, FlowExtractor.extract_node_range f req = .ok g ∧
        g.nodes ≠ [] ∧
        "start" ∈ g.nodes.map (fun n => n.type) ∧
        "end" ∈ g.nodes.map (fun n => n.type) ∧
        g.nodeIds.Nodup ∧
        ∀ n ∈ g.nodes, n.type ∈ validTypes)
    ∧ (∃ msg, FlowExtractor.extract_node_range offAnchorFlow ["a"]
        = .error (.validation msg)) := by
  constructor
  · intro f req hnd hty hs he hsel
    refine ⟨_, extract_node_range_ok f req hnd hty hs he hsel, ?_⟩
    obtain ⟨ns, hnsmem, hnsid, hnsty⟩ := hs
    obtain ⟨ne, hnemem, hneid, hnety⟩ := he
    have hsmem : ns ∈ f.nodes.filter
        (fun n => decide (n.id ∈ FlowExtractor.includedIds f req)) := by
      rw [List.mem_filter]
      refine ⟨hnsmem, ?_⟩
      rw [decide_eq_true_eq, mem_includedIds_iff]
      exact Or.inr (Or.inl ⟨hnsid, List.mem_map.mpr ⟨ns, hnsmem, hnsid⟩⟩)
    have hemem : ne ∈ f.nodes.filter
        (fun n => decide (n.id ∈ FlowExtractor.includedIds f req)) := by
      rw [List.mem_filter]
      refine ⟨hnemem, ?_⟩
      rw [decide_eq_true_eq, mem_includedIds_iff]
      exact Or.inr (Or.inr ⟨hneid, List.mem_map.mpr ⟨ne, hnemem, hneid⟩⟩)
    refine ⟨List.ne_nil_of_mem hsmem, ?_, ?_, ?_, ?_⟩
    · exact List.mem_map.mpr ⟨ns, hsmem, hnsty⟩
    · exact List.mem_map.mpr ⟨ne, hemem, hnety⟩
    · exact hnd.sublist (List.Sublist.map _ (List.filter_sublist f.nodes))
    · intro n hn
      exact hty n (List.mem_filter.mp hn).1
  · exact ⟨"開始/終了ノードが必要です", rfl⟩

/-- Witness for C9: the safety half applied to the chain flow with the
selection `{a}`. -/
theorem C9_extract_anchor_safety_witness :
    ∃ g, FlowExtractor.extract_node_range chainFlow ["a"] = .ok g ∧
      g.nodes ≠ [] ∧
      "start" ∈ g.nodes.map (fun n => n.type) ∧
      "end" ∈ g.nodes.map (fun n => n.type) ∧
      g.nodeIds.Nodup ∧
      ∀ n ∈ g.nodes, n.type ∈ validTypes :=
  C9_extract_anchor_safety.1 chainFlow ["a"]
    (by decide) (by decide) (by decide) (by decide) (by decide)

/-! The flow merger (claim C4). -/

theorem replaceFirstNodeById_getElem? (ns : List Node) (c : Node) (i : Nat) :
    (replaceFirstNodeById ns c)[i]? = ns[i]? ∨
    ((replaceFirstNodeById ns c)[i]? = some c ∧
      ∃ n, ns[i]? = some n ∧ n.id = c.id) := by
  induction ns generalizing i with
  | nil => exact Or.inl rfl
  | cons n rest ih =>
    unfold replaceFirstNodeById
    by_cases hk : n.id == c.id
    · rw [if_pos hk]
      cases i with
      | zero =>
        refine Or.inr ⟨?_, n, ?_, by simpa using hk⟩
        · exact List.getElem?_cons_zero
        · exact List.getElem?_cons_zero
      | succ j =>
        rw [List.getElem?_cons_succ, List.getElem?_cons_succ]
        exact Or.inl rfl
    · rw [if_neg hk]
      cases i with
      | zero =>
        rw [List.getElem?_cons_zero, List.getElem?_cons_zero]
        exact Or.inl rfl
      | succ j =>
        rw [List.getElem?_cons_succ, List.getElem?_cons_succ]
        exact ih j

theorem replaceFirstNodeById_mem (ns : List Node) (c : Node) :
    ∀ m ∈ replaceFirstNodeById ns c, m ∈ ns ∨ m = c := by
  induction ns with
  | nil => intro m hm; cases hm
  | cons n rest ih =>
    intro m hm
    unfold replaceFirstNodeById at hm
    by_cases hk : n.id == c.id
    · rw [if_pos hk] at hm
      rcases List.mem_cons.mp hm with rfl | hm
      · exact Or.inr rfl
      · exact Or.inl (List.mem_cons_of_mem _ hm)
    · rw [if_neg hk] at hm
      rcases List.mem_cons.mp hm with rfl | hm
      · exact Or.inl (List.mem_cons_self _ _)
      · rcases ih m hm with h | h
        · exact Or.inl (List.mem_cons_of_mem _ h)
        · exact Or.inr h

theorem nodeStep_getElem? (sel : List String) (ns : List Node) (c : Node)
    (i : Nat) (n : Node) (h : ns[i]? = some n) :
    ∃ m, (FlowMerger.nodeStep sel ns c)[i]? = some m ∧ m.id = n.id ∧
      (n.id ∈ anchorIds → m = n) := by
  unfold FlowMerger.nodeStep
  split_ifs with h1 h2
  · exact ⟨n, h, rfl, fun _ => rfl⟩
  · rcases replaceFirstNodeById_getElem? ns c i with hr | ⟨hr, n', hn', hid⟩
    · exact ⟨n, hr.trans h, rfl, fun _ => rfl⟩
    · have hnn : n' = n := by
        rw [h] at hn'
        exact (Option.some_injective _ hn').symm
      subst hnn
      refine ⟨c, hr, hid.symm, fun ha => ?_⟩
      rw [hid] at ha
      exact absurd ha h1
  · exact ⟨n, h, rfl, fun _ => rfl⟩

theorem nodeFold_getElem? (sel : List String) (part : List Node) :
    ∀ (acc : List Node) (i : Nat) (n : Node), acc[i]? = some n →
      ∃ m, (part.foldl (FlowMerger.nodeStep sel) acc)[i]? = some m ∧ m.id = n.id ∧
        (n.id ∈ anchorIds → m = n) := by
  induction part with
  | nil => exact fun acc i n h => ⟨n, h, rfl, fun _ => rfl⟩
  | cons c rest ih =>
    intro acc i n h
    obtain ⟨m1, hm1, hid1, hanc1⟩ := nodeStep_getElem? sel acc c i n h
    obtain ⟨m2, hm2, hid2, hanc2⟩ := ih (FlowMerger.nodeStep sel acc c) i m1 hm1
    refine ⟨m2, hm2, hid2.trans hid1, fun ha => ?_⟩
    have hm1n : m1 = n := hanc1 ha
    subst hm1n
    exact hanc2 ha

theorem nodeFold_mem (sel : List String) (part : List Node) :
    ∀ (acc : List Node), ∀ m ∈ part.foldl (FlowMerger.nodeStep sel) acc,
      m ∈ acc ∨ m.id ∉ anchorIds := by
  induction part with
  | nil => exact fun acc m hm => Or.inl hm
  | cons c rest ih =>
    intro acc m hm
    rcases ih (FlowMerger.nodeStep sel acc c) m hm with hmem | hout
    · unfold FlowMerger.nodeStep at hmem
      split_ifs at hmem with h1 h2
      · exact Or.inl hmem
      · rcases replaceFirstNodeById_mem acc c m hmem with h | rfl
        · exact Or.inl h
        · exact Or.inr h1
      · exact Or.inl hmem
    · exact Or.inr hout

theorem upsertEdge_getElem? (es : List Edge) (c : Edge) (i : Nat) (e : Edge)
    (h : es[i]? = some e) :
    (upsertEdge es c)[i]? = some e ∨
    ((upsertEdge es c)[i]? = some c ∧ e.source = c.source ∧ e.target = c.target) := by
  induction es generalizing i with
  | nil => simp at h
  | cons e0 rest ih =>
    unfold upsertEdge
    by_cases hk : e0.source == c.source && e0.target == c.target
    · rw [if_pos hk]
      cases i with
      | zero =>
        rw [List.getElem?_cons_zero] at h
        have he0 : e0 = e := Option.some_injective _ h
        subst he0
        simp only [Bool.and_eq_true, beq_iff_eq] at hk
        refine Or.inr ⟨?_, hk.1, hk.2⟩
        exact List.getElem?_cons_zero
      | succ j =>
        rw [List.getElem?_cons_succ] at h
        rw [List.getElem?_cons_succ]
        exact Or.inl h
    · rw [if_neg hk]
      cases i with
      | zero =>
        rw [List.getElem?_cons_zero] at h
        rw [List.getElem?_cons_zero]
        exact Or.inl h
      | succ j =>
        rw [List.getElem?_cons_succ] at h
        rw [List.getElem?_cons_succ]
        exact ih j h

theorem edgeProtected_eq_true_iff (sel : List String) (c : Edge) :
    edgeProtected sel c = true ↔
      ((c.source ∈ anchorIds ∧ c.target ∉ sel) ∨
       (c.target ∈ anchorIds ∧ c.source ∉ sel)) := by
  unfold edgeProtected
  simp

theorem edgeStep_getElem? (sel : List String) (es : List Edge) (c : Edge)
    (i : Nat) (e : Edge) (h : es[i]? = some e) :
    ∃ m, (FlowMerger.edgeStep sel es c)[i]? = some m ∧
      m.source = e.source ∧ m.target = e.target ∧
      (((e.source ∈ anchorIds ∧ e.target ∉ sel) ∨
        (e.target ∈ anchorIds ∧ e.source ∉ sel)) → m = e) := by
  unfold FlowMerger.edgeStep
  by_cases hp : edgeProtected sel c
  · rw [if_pos hp]
    exact ⟨e, h, rfl, rfl, fun _ => rfl⟩
  · rw [if_neg hp]
    rcases upsertEdge_getElem? es c i e h with hr | ⟨hr, hsrc, htgt⟩
    · exact ⟨e, hr, rfl, rfl, fun _ => rfl⟩
    · refine ⟨c, hr, hsrc.symm, htgt.symm, fun hprot => ?_⟩
      exfalso
      apply hp
      rw [edgeProtected_eq_true_iff]
      rw [← hsrc, ← htgt]
      exact hprot

theorem edgeFold_getElem? (sel : List String) (part : List Edge) :
    ∀ (acc : List Edge) (i : Nat) (e : Edge), acc[i]? = some e →
      ∃ m, (part.foldl (FlowMerger.edgeStep sel) acc)[i]? = some m ∧
        m.source = e.source ∧ m.target = e.target ∧
        (((e.source ∈ anchorIds ∧ e.target ∉ sel) ∨
          (e.target ∈ anchorIds ∧ e.source ∉ sel)) → m = e) := by
  induction part with
  | nil => exact fun acc i e h => ⟨e, h, rfl, rfl, fun _ => rfl⟩
  | cons c rest ih =>
    intro acc i e h
    obtain ⟨m1, hm1, hs1, ht1, hp1⟩ := edgeStep_getElem? sel acc c i e h
    obtain ⟨m2, hm2, hs2, ht2, hp2⟩ := ih (FlowMerger.edgeStep sel acc c) i m1 hm1
    refine ⟨m2, hm2, hs2.trans hs1, ht2.trans ht1, fun hprot => ?_⟩
    have hm1e : m1 = e := hp1 hprot
    subst hm1e
    exact hp2 hprot

/-- C4: `merge_partial_change` keeps the original's anchor-id nodes
unchanged at their positions, never carries an anchor-id node that is not
an original node, keeps unchanged every original edge that touches an
anchor on one endpoint while its other endpoint is outside the selection
(any such proposed edge is skipped), and keeps the original's subgraph
mapping. -/
theorem C4_merge_partial_change_protection (original changed : Flowchart)
    (sel : List String) :
    (∀ (i : Nat) (hi : i < original.nodes.length),
      (original.nodes.get ⟨i, hi⟩).id ∈ anchorIds →
      (FlowMerger.merge_partial_change original changed sel).nodes[i]? =
        some (original.nodes.get ⟨i, hi⟩))
    ∧ (∀ m ∈ (FlowMerger.merge_partial_change original changed sel).nodes,
        m.id ∈ anchorIds → m ∈ original.nodes)
    ∧ (∀ (i : Nat) (hi : i < original.edges.length),
        ((((original.edges.get ⟨i, hi⟩).source ∈ anchorIds) ∧
            (original.edges.get ⟨i, hi⟩).target ∉ sel) ∨
         (((original.edges.get ⟨i, hi⟩).target ∈ anchorIds) ∧
            (original.edges.get ⟨i, hi⟩).source ∉ sel)) →
        (FlowMerger.merge_partial_change original changed sel).edges[i]? =
          some (original.edges.get ⟨i, hi⟩))
    ∧ (FlowMerger.merge_partial_change original changed sel).subgraphs =
        original.subgraphs := by
  refine ⟨?_, ?_, ?_, rfl⟩
  · intro i hi hanc
    have h0 : original.nodes[i]? = some (original.nodes.get ⟨i, hi⟩) :=
      List.getElem?_eq_getElem hi
    obtain ⟨m, hm, hid, hancm⟩ :=
      nodeFold_getElem? sel changed.nodes original.nodes i _ h0
    have hmn := hancm hanc
    subst hmn
    have hlen : i < (changed.nodes.foldl (FlowMerger.nodeStep sel) original.nodes).length :=
      (List.getElem?_eq_some_iff.mp hm).1
    show ((changed.nodes.foldl (FlowMerger.nodeStep sel) original.nodes) ++ _)[i]? = _
    rw [List.getElem?_append, if_pos hlen]
    exact hm
  · intro m hm hanc
    rcases List.mem_append.mp hm with hm1 | hm2
    · rcases nodeFold_mem sel changed.nodes original.nodes m hm1 with h | h
      · exact h
      · exact absurd hanc h
    · have := (List.mem_filter.mp hm2).2
      simp only [Bool.and_eq_true, decide_eq_true_eq] at this
      exact absurd hanc this.1
  · intro i hi hprot
    have h0 : original.edges[i]? = some (original.edges.get ⟨i, hi⟩) :=
      List.getElem?_eq_getElem hi
    obtain ⟨m, hm, hs, ht, hp⟩ :=
      edgeFold_getElem? sel changed.edges original.edges i _ h0
    have hme := hp hprot
    subst hme
    exact hm

/-- Witness for C4: a concrete partial change that relabels `start`,
proposes an anchor-touching edge to a node outside the selection, and
relabels the selected node `a`; the anchors and the protected edge stay
byte-for-byte, while the merge still happened (the label of `a` changed). -/
theorem C4_merge_partial_change_protection_witness :
    (FlowMerger.merge_partial_change chainFlow
      ⟨[⟨"start", "乗っ取り", "start", .active, none⟩,
        ⟨"b", "B改", "process", .active, none⟩],
       [⟨"start", "a", some "外"⟩], none⟩ ["b"]).nodes[0]? =
      some ⟨"start", "開始", "start", .active, none⟩
    ∧ (FlowMerger.merge_partial_change chainFlow
      ⟨[⟨"start", "乗っ取り", "start", .active, none⟩,
        ⟨"b", "B改", "process", .active, none⟩],
       [⟨"start", "a", some "外"⟩], none⟩ ["b"]).edges[0]? =
      some ⟨"start", "a", none⟩ := by
  constructor
  · exact (C4_merge_partial_change_protection chainFlow _ ["b"]).1 0 (by decide)
      (by decide)
  · exact (C4_merge_partial_change_protection chainFlow _ ["b"]).2.2.1 0 (by decide)
      (by decide)

/-! The history-manager append merge (claim C6). -/

/-- C6: in the `append_toon_log` merge with an existing snapshot, every
existing node whose id also occurs in the new flowchart is replaced by the
first new node with that id (no anchor protection — the statement
quantifies over all ids, anchors included), every existing node whose id is
absent from the new flowchart is kept, and the new flowchart's remaining
nodes are appended; edges are merged identically keyed by the
`(source, target)` pair; with no existing snapshot the new flowchart is
returned unchanged. -/
theorem C6_append_toon_log_merge (ex newF : Flowchart) :
    (∀ n ∈ ex.nodes, ∀ m, newF.nodes.find? (fun k => k.id == n.id) = some m →
      m ∈ (appendToonMergedCore ex newF).nodes)
    ∧ (∀ n ∈ ex.nodes, (∀ m ∈ newF.nodes, m.id ≠ n.id) →
        n ∈ (appendToonMergedCore ex newF).nodes)
    ∧ (∀ m ∈ newF.nodes, (∀ n ∈ ex.nodes, n.id ≠ m.id) →
        m ∈ (appendToonMergedCore ex newF).nodes)
    ∧ (∀ e ∈ ex.edges, ∀ c,
        newF.edges.find? (fun k => k.source == e.source && k.target == e.target) = some c →
        c ∈ (appendToonMergedCore ex newF).edges)
    ∧ (∀ e ∈ ex.edges,
        (∀ c ∈ newF.edges, ¬(c.source = e.source ∧ c.target = e.target)) →
        e ∈ (appendToonMergedCore ex newF).edges)
    ∧ (∀ c ∈ newF.edges,
        (∀ e ∈ ex.edges, ¬(e.source = c.source ∧ e.target = c.target)) →
        c ∈ (appendToonMergedCore ex newF).edges)
    ∧ appendToonLogResult none newF = newF := by
  unfold appendToonMergedCore mergeNodesNewWins mergeEdgesNewWins
  refine ⟨?_, ?_, ?_, ?_, ?_, ?_, rfl⟩
  · intro n hn m hm
    apply List.mem_append_left
    apply List.mem_map.mpr
    exact ⟨n, hn, by rw [hm]; rfl⟩
  · intro n hn hnone
    apply List.mem_append_left
    apply List.mem_map.mpr
    refine ⟨n, hn, ?_⟩
    have : newF.nodes.find? (fun k => k.id == n.id) = none := by
      apply List.find?_eq_none.mpr
      intro m hm
      simpa using hnone m hm
    rw [this]
    rfl
  · intro m hm hnone
    apply List.mem_append_right
    apply List.mem_filter.mpr
    refine ⟨hm, ?_⟩
    rw [decide_eq_true_eq]
    intro hmem
    obtain ⟨n, hn, hid⟩ := List.mem_map.mp hmem
    exact hnone n hn hid
  · intro e he c hc
    apply List.mem_append_left
    apply List.mem_map.mpr
    exact ⟨e, he, by rw [hc]; rfl⟩
  · intro e he hnone
    apply List.mem_append_left
    apply List.mem_map.mpr
    refine ⟨e, he, ?_⟩
    have : newF.edges.find?
        (fun k => k.source == e.source && k.target == e.target) = none := by
      apply List.find?_eq_none.mpr
      intro c hc
      have := hnone c hc
      simp only [Bool.and_eq_true, beq_iff_eq, not_and]
      intro hs ht
      exact this ⟨hs, ht⟩
    rw [this]
    rfl
  · intro c hc hnone
    apply List.mem_append_right
    apply List.mem_filter.mpr
    refine ⟨hc, ?_⟩
    rw [decide_eq_true_eq]
    intro hmem
    obtain ⟨e, he, hkey⟩ := List.mem_map.mp hmem
    have h1 : e.source = c.source := congrArg Prod.fst hkey
    have h2 : e.target = c.target := congrArg Prod.snd hkey
    exact hnone e he ⟨h1, h2⟩

/-- Witness for C6: relabeling `start` and `a` and adding a node `c` to the
saved chain keeps `b`/`node_end`, overwrites `start` (no anchor
protection) and `a`, and appends `c`; the no-snapshot branch returns the
new flowchart unchanged. -/
theorem C6_append_toon_log_merge_witness :
    (⟨"start", "乗っ取り", "start", .active, none⟩ : Node) ∈
      (appendToonMergedCore chainFlow
        ⟨[⟨"start", "乗っ取り", "start", .active, none⟩,
          ⟨"a", "A改", "process", .active, none⟩,
          ⟨"c", "C", "process", .active, none⟩], [], none⟩).nodes
    ∧ (⟨"b", "B", "process", .active, none⟩ : Node) ∈
      (appendToonMergedCore chainFlow
        ⟨[⟨"start", "乗っ取り", "start", .active, none⟩,
          ⟨"a", "A改", "process", .active, none⟩,
          ⟨"c", "C", "process", .active, none⟩], [], none⟩).nodes
    ∧ (⟨"c", "C", "process", .active, none⟩ : Node) ∈
      (appendToonMergedCore chainFlow
        ⟨[⟨"start", "乗っ取り", "start", .active, none⟩,
          ⟨"a", "A改", "process", .active, none⟩,
          ⟨"c", "C", "process", .active, none⟩], [], none⟩).nodes := by
  refine ⟨?_, ?_, ?_⟩
  · exact (C6_append_toon_log_merge chainFlow _).1
      ⟨"start", "開始", "start", .active, none⟩ (by decide) _ (by decide)
  · exact (C6_append_toon_log_merge chainFlow _).2.1
      ⟨"b", "B", "process", .active, none⟩ (by decide) (by decide)
  · exact (C6_append_toon_log_merge chainFlow _).2.2.1
      ⟨"c", "C", "process", .active, none⟩ (by decide) (by decide)

/-! LLM response classification (claim C8). -/

/-- C8: `is_question_response` classifies every text containing a `[Node]`
or `[Edge]` tag (case-insensitively) as flow data regardless of any
question pattern it also contains; a tag-free text matching a question
pattern (literal patterns, a trailing question mark, or the numbered-list
pattern) is classified as a question; a text matching neither is flow
data. -/
theorem C8_is_question_response (s : String) :
    ((hasNodeTag s = true ∨ hasEdgeTag s = true) →
      LLMClient.is_question_response s = false)
    ∧ (hasNodeTag s = false → hasEdgeTag s = false →
        (questionPatternsHit s = true ∨ numberedQuestionSearch s.data = true) →
        LLMClient.is_question_response s = true)
    ∧ (hasNodeTag s = false → hasEdgeTag s = false →
        questionPatternsHit s = false → numberedQuestionSearch s.data = false →
        LLMClient.is_question_response s = false) := by
  unfold LLMClient.is_question_response
  refine ⟨?_, ?_, ?_⟩
  · rintro (h | h)
    · simp [h]
    · cases hn : hasNodeTag s <;> simp [hn, h]
  · intro h1 h2 h3
    rcases h3 with h3 | h3 <;> simp [h1, h2, h3]
  · intro h1 h2 h3 h4
    simp [h1, h2, h3, h4]

/-- Witness for C8: a tagged text with a trailing question mark is flow
data, a numbered question list is a question, and a plain statement is
flow data. -/
theorem C8_is_question_response_witness :
    LLMClient.is_question_response "[Node]\nid: a\nlabel: 何か\n何ですか？" = false
    ∧ LLMClient.is_question_response "1. 対象は何ですか？\n2. 環境は？" = true
    ∧ LLMClient.is_question_response "了解しました" = false := by
  refine ⟨?_, ?_, ?_⟩
  · exact (C8_is_question_response _).1 (Or.inl (by decide))
  · exact (C8_is_question_response _).2.1 (by decide) (by decide) (Or.inl (by decide))
  · exact (C8_is_question_response _).2.2 (by decide) (by decide) (by decide) (by decide)

/-! The Mermaid parser start/end fallback (claim C10). -/

theorem singleton_mkFlowchart_error (m : Node) (es : List Edge) :
    mkFlowchart [m] es none = .error (.validation "開始/終了ノードが必要です") := by
  unfold mkFlowchart validateFlowStructure
  have h1 : ([m] : List Node) ≠ [] := by simp
  rw [if_neg h1]
  have h2 : "start" ∉ ([m].map (fun n => n.type)) ∨ "end" ∉ ([m].map (fun n => n.type)) := by
    by_cases hs : m.type = "start"
    · right
      simp [hs]
    · left
      simp only [List.map_cons, List.map_nil, List.mem_singleton]
      exact fun hc => hs hc.symm
  rw [if_pos h2]

theorem mermaidFinalize_single (n : Node) (es : List Edge) :
    ∃ msg, mermaidFinalize [n] es = .error (.validation msg) := by
  refine ⟨"開始/終了ノードが必要です", ?_⟩
  unfold mermaidFinalize
  by_cases hs : "start" ∈ ([n].map (fun n => n.type)) <;>
    by_cases he : "end" ∈ ([n].map (fun n => n.type)) <;>
      simp only [hs, he, if_true, if_false] <;>
      by_cases hne : n.id == "node_end" <;>
        simp [retypeFirstNodeEndId, setLastTypeEnd, hne, singleton_mkFlowchart_error]

/-- C10: for every Mermaid document from which exactly one node is parsed,
`MermaidParser.parse` ends in a Validation error: because the present-type
set is computed once before the two fallback retypings, the single node
ends up typed only `start` or only `end`, and construction then fails the
start/end-presence invariant. -/
theorem C10_mermaid_single_node (t : String)
    (h : (MermaidParser.scan t).1.length = 1) :
    ∃ msg, MermaidParser.parse t = .error (.validation msg) := by
  obtain ⟨n, hn⟩ : ∃ n, (MermaidParser.scan t).1 = [n] := List.length_eq_one.mp h
  simp only [MermaidParser.parse]
  rw [hn]
  rw [if_neg (by simp)]
  exact mermaidFinalize_single n (MermaidParser.scan t).2

/-- Witness for C10: the document `graph TD\nA[タスク]` parses exactly one
node and `MermaidParser.parse` reports a Validation error on it. -/
theorem C10_mermaid_single_node_witness :
    ∃ msg, MermaidParser.parse "graph TD\nA[タスク]" = .error (.validation msg) :=
  C10_mermaid_single_node "graph TD\nA[タスク]" (by decide)

/-! The TOON codec round trip (claim C7). -/

/-- C7: for the flow `start → process1 → node_end` with no optional fields
set, parsing the TOON serialization returns the flow itself (so
re-serializing reproduces the identical text, and in particular the same
node ids, labels and types), and the serialized text contains the literal
substrings `[Node]`, `id: start`, `[Edge]` and `source: start`. -/
theorem C7_toon_round_trip :
    TOONParser.parse flowStartProc1End.to_toon_format = .ok flowStartProc1End
    ∧ (TOONParser.parse flowStartProc1End.to_toon_format).map
        (fun fc => fc.to_toon_format) = .ok flowStartProc1End.to_toon_format
    ∧ containsSub flowStartProc1End.to_toon_format "[Node]" = true
    ∧ containsSub flowStartProc1End.to_toon_format "id: start" = true
    ∧ containsSub flowStartProc1End.to_toon_format "[Edge]" = true
    ∧ containsSub flowStartProc1End.to_toon_format "source: start" = true := by
  set_option maxRecDepth 100000 in
  exact ⟨rfl, rfl, rfl, rfl, rfl, rfl⟩

/-! Self-repair (claims C1 and C3): properties of `detect_logic_gaps` and
`apply_logic_gap_detection`. -/

theorem missingTyped_overwriteMissing (n : Node) : missingTyped (overwriteMissing n) :=
  ⟨rfl, rfl⟩

theorem missingTyped_missingNode (x : String) : missingTyped (missingNode x) :=
  ⟨rfl, rfl⟩

theorem overwriteMissing_eq_self (n : Node) (h : missingTyped n) :
    overwriteMissing n = n := by
  cases n
  obtain ⟨h1, h2⟩ := h
  simp only at h1 h2
  simp [overwriteMissing, h1, h2]

theorem missingPrefix_inj (x y : String) (h : "missing_" ++ x = "missing_" ++ y) :
    x = y := by
  have hd := congrArg String.data h
  simp only [String.data_append] at hd
  have h2 := List.append_cancel_left hd
  cases x
  cases y
  exact congrArg String.mk h2

theorem overwriteFirst_map_id (ns : List Node) (gid : String) :
    (overwriteFirst ns gid).map (fun n => n.id) = ns.map (fun n => n.id) := by
  induction ns with
  | nil => rfl
  | cons n rest ih =>
    unfold overwriteFirst
    by_cases hk : n.id == gid
    · rw [if_pos hk]
      rfl
    · rw [if_neg hk]
      simp only [List.map_cons]
      rw [ih]

theorem overwriteFirst_mem (ns : List Node) (gid : String) :
    ∀ m ∈ overwriteFirst ns gid,
      m ∈ ns ∨ ∃ n ∈ ns, n.id = gid ∧ m = overwriteMissing n := by
  induction ns with
  | nil => intro m hm; cases hm
  | cons n rest ih =>
    intro m hm
    unfold overwriteFirst at hm
    by_cases hk : n.id == gid
    · rw [if_pos hk] at hm
      rcases List.mem_cons.mp hm with rfl | hm
      · exact Or.inr ⟨n, List.mem_cons_self _ _, by simpa using hk, rfl⟩
      · exact Or.inl (List.mem_cons_of_mem _ hm)
    · rw [if_neg hk] at hm
      rcases List.mem_cons.mp hm with rfl | hm
      · exact Or.inl (List.mem_cons_self _ _)
      · rcases ih m hm with h | ⟨n', hn', hid, hw⟩
        · exact Or.inl (List.mem_cons_of_mem _ h)
        · exact Or.inr ⟨n', List.mem_cons_of_mem _ hn', hid, hw⟩

theorem overwriteFirst_eq_self (ns : List Node) (gid : String)
    (h : ∀ n ∈ ns, n.id = gid → overwriteMissing n = n) :
    overwriteFirst ns gid = ns := by
  induction ns with
  | nil => rfl
  | cons n rest ih =>
    unfold overwriteFirst
    by_cases hk : n.id == gid
    · rw [if_pos hk]
      rw [h n (List.mem_cons_self _ _) (by simpa using hk)]
    · rw [if_neg hk]
      rw [ih (fun n' hn' hid => h n' (List.mem_cons_of_mem _ hn') hid)]

theorem overwriteFirst_marked_preserved (ns : List Node) (gid x : String)
    (h : MarkedAt ns x) : MarkedAt (overwriteFirst ns gid) x := by
  intro m hm hid
  rcases overwriteFirst_mem ns gid m hm with hmem | ⟨n, _, _, rfl⟩
  · exact h m hmem hid
  · exact missingTyped_overwriteMissing n

theorem overwriteFirst_marks (ns : List Node) (gid : String)
    (hnd : (ns.map (fun n => n.id)).Nodup) :
    MarkedAt (overwriteFirst ns gid) gid := by
  induction ns with
  | nil => intro m hm; cases hm
  | cons n rest ih =>
    simp only [List.map_cons, List.nodup_cons] at hnd
    intro m hm hid
    unfold overwriteFirst at hm
    by_cases hk : n.id == gid
    · rw [if_pos hk] at hm
      rcases List.mem_cons.mp hm with rfl | hm
      · exact missingTyped_overwriteMissing n
      · exfalso
        apply hnd.1
        have : n.id = gid := by simpa using hk
        rw [this, ← hid]
        exact List.mem_map.mpr ⟨m, hm, rfl⟩
    · rw [if_neg hk] at hm
      rcases List.mem_cons.mp hm with rfl | hm
      · exact absurd hid (by simpa using hk)
      · exact ih hnd.2 m hm hid

theorem overwriteFirst_mem_self (ns : List Node) (gid : String) (m : Node)
    (hm : m ∈ ns) (hfix : overwriteMissing m = m) : m ∈ overwriteFirst ns gid := by
  induction ns with
  | nil => cases hm
  | cons n rest ih =>
    unfold overwriteFirst
    by_cases hk : n.id == gid
    · rw [if_pos hk]
      rcases List.mem_cons.mp hm with rfl | hm'
      · rw [hfix]
        exact List.mem_cons_self _ _
      · exact List.mem_cons_of_mem _ hm'
    · rw [if_neg hk]
      rcases List.mem_cons.mp hm with rfl | hm'
      · exact List.mem_cons_self _ _
      · exact List.mem_cons_of_mem _ (ih hm')

theorem IdsOK_overwriteFirst (ns : List Node) (ids : List String) (gid : String)
    (hok : IdsOK ns ids) : IdsOK (overwriteFirst ns gid) ids := by
  intro y
  rw [overwriteFirst_map_id]
  exact hok y

theorem IdsOK_append (ns : List Node) (ids : List String) (g : Node)
    (hok : IdsOK ns ids) : IdsOK (ns ++ [g]) (ids ++ [g.id]) := by
  intro y
  simp only [List.map_append, List.map_cons, List.map_nil, List.mem_append,
    List.mem_singleton]
  rw [hok y]

theorem nodup_id_append (ns : List Node) (ids : List String) (g : Node)
    (hok : IdsOK ns ids) (hnd : (ns.map (fun n => n.id)).Nodup) (hg : g.id ∉ ids) :
    ((ns ++ [g]).map (fun n => n.id)).Nodup := by
  simp only [List.map_append, List.map_cons, List.map_nil]
  rw [List.nodup_append]
  refine ⟨hnd, List.nodup_singleton _, ?_⟩
  intro y hy hmem
  rcases List.mem_singleton.mp hmem with rfl
  exact hg ((hok _).mpr hy)

theorem insertGaps_idsOK (gs : List Node) :
    ∀ (ns : List Node) (ids : List String), IdsOK ns ids →
      IdsOK (insertGaps ns ids gs).1 (insertGaps ns ids gs).2 := by
  induction gs with
  | nil => exact fun ns ids h => h
  | cons g rest ih =>
    intro ns ids h
    unfold insertGaps
    by_cases hg : g.id ∈ ids
    · rw [if_pos hg]
      exact ih _ _ (IdsOK_overwriteFirst ns ids g.id h)
    · rw [if_neg hg]
      exact ih _ _ (IdsOK_append ns ids g h)

theorem insertGaps_ids_mono (gs : List Node) :
    ∀ (ns : List Node) (ids : List String) (x : String), x ∈ ids →
      x ∈ (insertGaps ns ids gs).2 := by
  induction gs with
  | nil => exact fun ns ids x h => h
  | cons g rest ih =>
    intro ns ids x h
    unfold insertGaps
    by_cases hg : g.id ∈ ids
    · rw [if_pos hg]
      exact ih _ _ x h
    · rw [if_neg hg]
      exact ih _ _ x (List.mem_append_left _ h)

theorem insertGaps_gap_ids (gs : List Node) :
    ∀ (ns : List Node) (ids : List String), ∀ g ∈ gs,
      g.id ∈ (insertGaps ns ids gs).2 := by
  induction gs with
  | nil => intro ns ids g hg; cases hg
  | cons g0 rest ih =>
    intro ns ids g hg
    unfold insertGaps
    rcases List.mem_cons.mp hg with rfl | hg'
    · by_cases hg0 : g.id ∈ ids
      · rw [if_pos hg0]
        exact insertGaps_ids_mono rest _ _ g.id hg0
      · rw [if_neg hg0]
        exact insertGaps_ids_mono rest _ _ g.id
          (List.mem_append_right _ (List.mem_singleton.mpr rfl))
    · by_cases hg0 : g0.id ∈ ids
      · rw [if_pos hg0]
        exact ih _ _ g hg'
      · rw [if_neg hg0]
        exact ih _ _ g hg'

theorem insertGaps_nodup (gs : List Node) :
    ∀ (ns : List Node) (ids : List String), IdsOK ns ids →
      (ns.map (fun n => n.id)).Nodup →
      ((insertGaps ns ids gs).1.map (fun n => n.id)).Nodup := by
  induction gs with
  | nil => exact fun ns ids _ h => h
  | cons g rest ih =>
    intro ns ids hok hnd
    unfold insertGaps
    by_cases hg : g.id ∈ ids
    · rw [if_pos hg]
      apply ih
      · exact IdsOK_overwriteFirst ns ids g.id hok
      · rw [overwriteFirst_map_id]
        exact hnd
    · rw [if_neg hg]
      apply ih
      · exact IdsOK_append ns ids g hok
      · exact nodup_id_append ns ids g hok hnd hg

theorem insertGaps_mem (gs : List Node) :
    ∀ (ns : List Node) (ids : List String), ∀ m ∈ (insertGaps ns ids gs).1,
      m ∈ ns ∨ m ∈ gs ∨ missingTyped m := by
  induction gs with
  | nil => exact fun ns ids m hm => Or.inl hm
  | cons g rest ih =>
    intro ns ids m hm
    unfold insertGaps at hm
    by_cases hg : g.id ∈ ids
    · rw [if_pos hg] at hm
      rcases ih _ _ m hm with h | h | h
      · rcases overwriteFirst_mem ns g.id m h with h' | ⟨n, _, _, rfl⟩
        · exact Or.inl h'
        · exact Or.inr (Or.inr (missingTyped_overwriteMissing n))
      · exact Or.inr (Or.inl (List.mem_cons_of_mem _ h))
      · exact Or.inr (Or.inr h)
    · rw [if_neg hg] at hm
      rcases ih _ _ m hm with h | h | h
      · rcases List.mem_append.mp h with h' | h'
        · exact Or.inl h'
        · rcases List.mem_singleton.mp h' with rfl
          exact Or.inr (Or.inl (List.mem_cons_self _ _))
      · exact Or.inr (Or.inl (List.mem_cons_of_mem _ h))
      · exact Or.inr (Or.inr h)

theorem insertGaps_marked_preserved (gs : List Node) :
    ∀ (ns : List Node) (ids : List String) (x : String), IdsOK ns ids → x ∈ ids →
      MarkedAt ns x → MarkedAt (insertGaps ns ids gs).1 x := by
  induction gs with
  | nil => exact fun ns ids x _ _ h => h
  | cons g rest ih =>
    intro ns ids x hok hx hmark
    unfold insertGaps
    by_cases hg : g.id ∈ ids
    · rw [if_pos hg]
      apply ih _ _ x
      · exact IdsOK_overwriteFirst ns ids g.id hok
      · exact hx
      · exact overwriteFirst_marked_preserved ns g.id x hmark
    · rw [if_neg hg]
      apply ih _ _ x
      · exact IdsOK_append ns ids g hok
      · exact List.mem_append_left _ hx
      · intro m hm hid
        rcases List.mem_append.mp hm with h' | h'
        · exact hmark m h' hid
        · rcases List.mem_singleton.mp h' with rfl
          exfalso
          rw [hid] at hg
          exact hg hx

theorem insertGaps_marks (gs : List Node) :
    ∀ (ns : List Node) (ids : List String), IdsOK ns ids →
      (ns.map (fun n => n.id)).Nodup →
      (∀ g ∈ gs, g.id ∈ ids ∨ missingTyped g) →
      ∀ g ∈ gs, MarkedAt (insertGaps ns ids gs).1 g.id := by
  induction gs with
  | nil => intro ns ids _ _ _ g hg; cases hg
  | cons g0 rest ih =>
    intro ns ids hok hnd hcond g hg
    have hok' : ∀ ns' ids', IdsOK ns' ids' → True := fun _ _ _ => trivial
    unfold insertGaps
    by_cases hg0 : g0.id ∈ ids
    · rw [if_pos hg0]
      have hokO : IdsOK (overwriteFirst ns g0.id) ids :=
        IdsOK_overwriteFirst ns ids g0.id hok
      have hndO : ((overwriteFirst ns g0.id).map (fun n => n.id)).Nodup := by
        rw [overwriteFirst_map_id]
        exact hnd
      rcases List.mem_cons.mp hg with rfl | hg'
      · exact insertGaps_marked_preserved rest _ _ g.id hokO hg0
          (overwriteFirst_marks ns g.id hnd)
      · exact ih _ _ hokO hndO
          (fun g' hg'' => hcond g' (List.mem_cons_of_mem _ hg'')) g hg'
    · rw [if_neg hg0]
      have hokA : IdsOK (ns ++ [g0]) (ids ++ [g0.id]) := IdsOK_append ns ids g0 hok
      have hndA : ((ns ++ [g0]).map (fun n => n.id)).Nodup :=
        nodup_id_append ns ids g0 hok hnd hg0
      rcases List.mem_cons.mp hg with rfl | hg'
      · have hmiss : missingTyped g := by
          rcases hcond g (List.mem_cons_self _ _) with h | h
          · exact absurd h hg0
          · exact h
        apply insertGaps_marked_preserved rest _ _ g.id hokA
          (List.mem_append_right _ (List.mem_singleton.mpr rfl))
        intro m hm hid
        rcases List.mem_append.mp hm with h' | h'
        · exfalso
          apply hg0
          rw [← hid]
          exact (hok m.id).mpr (List.mem_map.mpr ⟨m, h', rfl⟩)
        · rcases List.mem_singleton.mp h' with rfl
          exact hmiss
      · apply ih _ _ hokA hndA
        · intro g' hg''
          rcases hcond g' (List.mem_cons_of_mem _ hg'') with h | h
          · exact Or.inl (List.mem_append_left _ h)
          · exact Or.inr h
        · exact hg'

theorem insertGaps_mem_self (gs : List Node) :
    ∀ (ns : List Node) (ids : List String) (m : Node), m ∈ ns →
      overwriteMissing m = m → m ∈ (insertGaps ns ids gs).1 := by
  induction gs with
  | nil => exact fun ns ids m hm _ => hm
  | cons g rest ih =>
    intro ns ids m hm hfix
    unfold insertGaps
    by_cases hg : g.id ∈ ids
    · rw [if_pos hg]
      exact ih _ _ m (overwriteFirst_mem_self ns g.id m hm hfix) hfix
    · rw [if_neg hg]
      exact ih _ _ m (List.mem_append_left _ hm) hfix

theorem insertGaps_eq_self (gs : List Node) :
    ∀ (ns : List Node) (ids : List String),
      (∀ g ∈ gs, g.id ∈ ids ∧ ∀ n ∈ ns, n.id = g.id → overwriteMissing n = n) →
      insertGaps ns ids gs = (ns, ids) := by
  induction gs with
  | nil => exact fun ns ids _ => rfl
  | cons g rest ih =>
    intro ns ids h
    unfold insertGaps
    rw [if_pos (h g (List.mem_cons_self _ _)).1]
    rw [overwriteFirst_eq_self ns g.id (h g (List.mem_cons_self _ _)).2]
    exact ih ns ids (fun g' hg' => h g' (List.mem_cons_of_mem _ hg'))

theorem insertGaps_adds_gap (gs : List Node) :
    ∀ (ns : List Node) (ids : List String) (g : Node), IdsOK ns ids → g ∈ gs →
      overwriteMissing g = g → g.id ∉ ids →
      (∀ g' ∈ gs, g'.id = g.id → g' = g) →
      g ∈ (insertGaps ns ids gs).1 := by
  induction gs with
  | nil => intro ns ids g _ hg; cases hg
  | cons g0 rest ih =>
    intro ns ids g hok hg hfix hgid huniq
    unfold insertGaps
    by_cases hg0 : g0.id ∈ ids
    · rw [if_pos hg0]
      have hne : g0.id ≠ g.id := fun h => hgid (h ▸ hg0)
      rcases List.mem_cons.mp hg with rfl | hg'
      · exact absurd rfl hne
      · refine ih _ _ g ?_ hg' hfix hgid
          (fun g' hg'' => huniq g' (List.mem_cons_of_mem _ hg''))
        intro y
        rw [overwriteFirst_map_id]
        exact hok y
    · rw [if_neg hg0]
      have hokA : IdsOK (ns ++ [g0]) (ids ++ [g0.id]) := IdsOK_append ns ids g0 hok
      rcases List.mem_cons.mp hg with rfl | hg'
      · exact insertGaps_mem_self rest _ _ g
          (List.mem_append_right _ (List.mem_singleton.mpr rfl)) hfix
      · by_cases hsame : g0.id = g.id
        · have : g0 = g := huniq g0 (List.mem_cons_self _ _) hsame
          subst this
          exact insertGaps_mem_self rest _ _ g0
            (List.mem_append_right _ (List.mem_singleton.mpr rfl)) hfix
        · refine ih _ _ g hokA hg' hfix ?_
            (fun g' hg'' => huniq g' (List.mem_cons_of_mem _ hg''))
          intro hmem
          rcases List.mem_append.mp hmem with h' | h'
          · exact hgid h'
          · exact hsame (List.mem_singleton.mp h').symm

theorem gapsFromEdges_eq_nil_of_resolved (ids : List String) (es : List Edge) :
    ∀ (p : List String), (∀ e ∈ es, e.source ∈ ids ∧ e.target ∈ ids) →
      gapsFromEdges ids es p = [] := by
  induction es with
  | nil => intro p _; rfl
  | cons e rest ih =>
    intro p h
    have he := h e (List.mem_cons_self _ _)
    unfold gapsFromEdges
    rw [if_pos (Or.inl he.2), if_pos (Or.inl he.1)]
    exact ih p (fun e' he' => h e' (List.mem_cons_of_mem _ he'))

theorem gapsFromEdges_nil_resolved (ids : List String) (es : List Edge)
    (h : gapsFromEdges ids es [] = []) :
    ∀ e ∈ es, e.source ∈ ids ∧ e.target ∈ ids := by
  induction es with
  | nil => intro e he; cases he
  | cons e rest ih =>
    unfold gapsFromEdges at h
    by_cases h1 : e.target ∈ ids ∨ ("missing_" ++ e.target) ∈ ([] : List String)
    · rw [if_pos h1] at h
      by_cases h2 : e.source ∈ ids ∨ ("missing_" ++ e.source) ∈ ([] : List String)
      · rw [if_pos h2] at h
        have ht : e.target ∈ ids := by
          rcases h1 with h' | h'
          · exact h'
          · cases h'
        have hs : e.source ∈ ids := by
          rcases h2 with h' | h'
          · exact h'
          · cases h'
        intro e' he'
        rcases List.mem_cons.mp he' with rfl | he''
        · exact ⟨hs, ht⟩
        · exact ih h e' he''
      · rw [if_neg h2] at h
        cases h
    · rw [if_neg h1] at h
      by_cases h2 : e.source ∈ ids ∨
          ("missing_" ++ e.source) ∈ ("missing_" ++ e.target) :: ([] : List String)
      · rw [if_pos h2] at h
        cases h
      · rw [if_neg h2] at h
        cases h

theorem gapsFromEdges_members (ids : List String) (es : List Edge) :
    ∀ (p : List String), ∀ g ∈ gapsFromEdges ids es p,
      ∃ x, g = missingNode x ∧ x ∉ ids := by
  induction es with
  | nil => intro p g hg; cases hg
  | cons e rest ih =>
    intro p g hg
    unfold gapsFromEdges at hg
    by_cases h1 : e.target ∈ ids ∨ ("missing_" ++ e.target) ∈ p
    · rw [if_pos h1] at hg
      by_cases h2 : e.source ∈ ids ∨ ("missing_" ++ e.source) ∈ p
      · rw [if_pos h2] at hg
        exact ih _ g hg
      · rw [if_neg h2] at hg
        push_neg at h2
        rcases List.mem_cons.mp hg with rfl | hg'
        · exact ⟨e.source, rfl, h2.1⟩
        · exact ih _ g hg'
    · rw [if_neg h1] at hg
      push_neg at h1
      by_cases h2 : e.source ∈ ids ∨
          ("missing_" ++ e.source) ∈ ("missing_" ++ e.target) :: p
      · rw [if_pos h2] at hg
        rcases List.mem_cons.mp hg with rfl | hg'
        · exact ⟨e.target, rfl, h1.1⟩
        · exact ih _ g hg'
      · rw [if_neg h2] at hg
        push_neg at h2
        rcases List.mem_cons.mp hg with rfl | hg'
        · exact ⟨e.target, rfl, h1.1⟩
        · rcases List.mem_cons.mp hg' with rfl | hg''
          · exact ⟨e.source, rfl, h2.1⟩
          · exact ih _ g hg''

theorem gapsFromEdges_covers (ids : List String) (es : List Edge) :
    ∀ (p : List String), ∀ e ∈ es,
      (e.source ∉ ids →
        ("missing_" ++ e.source) ∈ (gapsFromEdges ids es p).map (fun g => g.id) ∨
        ("missing_" ++ e.source) ∈ p) ∧
      (e.target ∉ ids →
        ("missing_" ++ e.target) ∈ (gapsFromEdges ids es p).map (fun g => g.id) ∨
        ("missing_" ++ e.target) ∈ p) := by
  induction es with
  | nil => intro p e he; cases he
  | cons e0 rest ih =>
    intro p e he
    unfold gapsFromEdges
    by_cases h1 : e0.target ∈ ids ∨ ("missing_" ++ e0.target) ∈ p
    · rw [if_pos h1]
      by_cases h2 : e0.source ∈ ids ∨ ("missing_" ++ e0.source) ∈ p
      · rw [if_pos h2]
        rcases List.mem_cons.mp he with rfl | he'
        · constructor
          · intro hs
            rcases h2 with h' | h'
            · exact absurd h' hs
            · exact Or.inr h'
          · intro ht
            rcases h1 with h' | h'
            · exact absurd h' ht
            · exact Or.inr h'
        · exact ih p e he'
      · rw [if_neg h2]
        rcases List.mem_cons.mp he with rfl | he'
        · constructor
          · intro _
            exact Or.inl (List.mem_cons_self _ _)
          · intro ht
            rcases h1 with h' | h'
            · exact absurd h' ht
            · exact Or.inr h'
        · have := ih (("missing_" ++ e0.source) :: p) e he'
          constructor
          · intro hs
            rcases this.1 hs with h' | h'
            · exact Or.inl (List.mem_cons_of_mem _ h')
            · rcases List.mem_cons.mp h' with heq | h''
              · rw [heq]
                exact Or.inl (List.mem_cons_self _ _)
              · exact Or.inr h''
          · intro ht
            rcases this.2 ht with h' | h'
            · exact Or.inl (List.mem_cons_of_mem _ h')
            · rcases List.mem_cons.mp h' with heq | h''
              · rw [heq]
                exact Or.inl (List.mem_cons_self _ _)
              · exact Or.inr h''
    · rw [if_neg h1]
      by_cases h2 : e0.source ∈ ids ∨
          ("missing_" ++ e0.source) ∈ ("missing_" ++ e0.target) :: p
      · rw [if_pos h2]
        rcases List.mem_cons.mp he with rfl | he'
        · constructor
          · intro hs
            rcases h2 with h' | h'
            · exact absurd h' hs
            · rcases List.mem_cons.mp h' with heq | h''
              · rw [heq]
                exact Or.inl (List.mem_cons_self _ _)
              · exact Or.inr h''
          · intro _
            exact Or.inl (List.mem_cons_self _ _)
        · have := ih (("missing_" ++ e0.target) :: p) e he'
          constructor
          · intro hs
            rcases this.1 hs with h' | h'
            · exact Or.inl (List.mem_cons_of_mem _ h')
            · rcases List.mem_cons.mp h' with heq | h''
              · rw [heq]
                exact Or.inl (List.mem_cons_self _ _)
              · exact Or.inr h''
          · intro ht
            rcases this.2 ht with h' | h'
            · exact Or.inl (List.mem_cons_of_mem _ h')
            · rcases List.mem_cons.mp h' with heq | h''
              · rw [heq]
                exact Or.inl (List.mem_cons_self _ _)
              · exact Or.inr h''
      · rw [if_neg h2]
        rcases List.mem_cons.mp he with rfl | he'
        · constructor
          · intro _
            exact Or.inl (List.mem_cons_of_mem _ (List.mem_cons_self _ _))
          · intro _
            exact Or.inl (List.mem_cons_self _ _)
        · have := ih
            (("missing_" ++ e0.source) :: ("missing_" ++ e0.target) :: p) e he'
          constructor
          · intro hs
            rcases this.1 hs with h' | h'
            · exact Or.inl (List.mem_cons_of_mem _ (List.mem_cons_of_mem _ h'))
            · rcases List.mem_cons.mp h' with heq | h''
              · rw [heq]
                exact Or.inl (List.mem_cons_of_mem _ (List.mem_cons_self _ _))
              · rcases List.mem_cons.mp h'' with heq2 | h3
                · rw [heq2]
                  exact Or.inl (List.mem_cons_self _ _)
                · exact Or.inr h3
          · intro ht
            rcases this.2 ht with h' | h'
            · exact Or.inl (List.mem_cons_of_mem _ (List.mem_cons_of_mem _ h'))
            · rcases List.mem_cons.mp h' with heq | h''
              · rw [heq]
                exact Or.inl (List.mem_cons_of_mem _ (List.mem_cons_self _ _))
              · rcases List.mem_cons.mp h'' with heq2 | h3
                · rw [heq2]
                  exact Or.inl (List.mem_cons_self _ _)
                · exact Or.inr h3

theorem rewireEnd_resolvable (ns : List Node) (ids : List String) (x : String)
    (h : x ∈ ids ∨ ("missing_" ++ x) ∈ ids) :
    rewireEnd ns ids x = (ns, ids, if x ∈ ids then x else "missing_" ++ x) := by
  unfold rewireEnd
  by_cases h1 : x ∈ ids
  · rw [if_pos h1, if_pos h1]
  · rw [if_neg h1, if_neg h1]
    rcases h with h' | h'
    · exact absurd h' h1
    · rw [if_pos h']

theorem rewireEdges_of_resolved (es : List Edge) :
    ∀ (ns : List Node) (ids : List String),
      (∀ e ∈ es, (e.source ∈ ids ∨ ("missing_" ++ e.source) ∈ ids) ∧
                 (e.target ∈ ids ∨ ("missing_" ++ e.target) ∈ ids)) →
      rewireEdges ns ids es = (ns, ids, es.map (rewriteEdge ids)) := by
  induction es with
  | nil => intro ns ids _; rfl
  | cons e rest ih =>
    intro ns ids h
    have he := h e (List.mem_cons_self _ _)
    show rewireEdges ns ids (e :: rest) = _
    unfold rewireEdges
    rw [rewireEnd_resolvable ns ids e.source he.1]
    simp only
    rw [rewireEnd_resolvable ns ids e.target he.2]
    simp only
    rw [ih ns ids (fun e' he' => h e' (List.mem_cons_of_mem _ he'))]
    simp only [List.map_cons]
    rfl

theorem rewriteEdge_eq_self (ids : List String) (e : Edge)
    (hs : e.source ∈ ids) (ht : e.target ∈ ids) : rewriteEdge ids e = e := by
  unfold rewriteEdge
  rw [if_pos hs, if_pos ht]

theorem outCount_le_map_rewrite (ids : List String) (x : String) (hx : x ∈ ids)
    (es : List Edge) :
    outCount es x ≤ outCount (es.map (rewriteEdge ids)) x := by
  induction es with
  | nil => exact Nat.le_refl _
  | cons e rest ih =>
    unfold outCount at ih ⊢
    simp only [List.map_cons, List.filter_cons]
    by_cases hsx : e.source == x
    · have hex : e.source = x := by simpa using hsx
      have hrw : ((rewriteEdge ids e).source == x) = true := by
        simp [rewriteEdge, hex, hx]
      rw [if_pos hsx, if_pos hrw]
      simpa using ih
    · rw [if_neg hsx]
      by_cases hrw : ((rewriteEdge ids e).source == x)
      · rw [if_pos hrw]
        simp only [List.length_cons]
        exact Nat.le_succ_of_le ih
      · rw [if_neg hrw]
        exact ih

theorem inCount_le_map_rewrite (ids : List String) (x : String) (hx : x ∈ ids)
    (es : List Edge) :
    inCount es x ≤ inCount (es.map (rewriteEdge ids)) x := by
  induction es with
  | nil => exact Nat.le_refl _
  | cons e rest ih =>
    unfold inCount at ih ⊢
    simp only [List.map_cons, List.filter_cons]
    by_cases htx : e.target == x
    · have hex : e.target = x := by simpa using htx
      have hrw : ((rewriteEdge ids e).target == x) = true := by
        simp [rewriteEdge, hex, hx]
      rw [if_pos htx, if_pos hrw]
      simpa using ih
    · rw [if_neg htx]
      by_cases hrw : ((rewriteEdge ids e).target == x)
      · rw [if_pos hrw]
        simp only [List.length_cons]
        exact Nat.le_succ_of_le ih
      · rw [if_neg hrw]
        exact ih

theorem decisionGapsOf_mem_iff (f : Flowchart) (n : Node) :
    n ∈ decisionGapsOf f ↔
      n ∈ f.nodes ∧ n.type = "decision" ∧ outCount f.edges n.id ≤ 1 := by
  unfold decisionGapsOf
  simp [List.mem_filter, and_assoc]

theorem orphanGapsOf_mem_iff (f : Flowchart) (n : Node) :
    n ∈ orphanGapsOf f ↔
      n ∈ f.nodes ∧ n.type ≠ "start" ∧ n.type ≠ "end" ∧
      outCount f.edges n.id = 0 ∧ inCount f.edges n.id = 0 := by
  unfold orphanGapsOf
  simp [List.mem_filter, and_assoc]

theorem decisionGapsOf_eq_nil (f : Flowchart) (hdec : f.DecisionsBranched) :
    decisionGapsOf f = [] := by
  unfold decisionGapsOf
  rw [List.filter_eq_nil_iff]
  intro n hn
  by_cases ht : n.type = "decision"
  · have h2 := hdec n hn ht
    simp [ht]
    omega
  · simp [ht]

theorem orphanGapsOf_eq_nil (f : Flowchart) (hno : f.NoOrphans) :
    orphanGapsOf f = [] := by
  unfold orphanGapsOf
  rw [List.filter_eq_nil_iff]
  intro n hn
  by_cases hs : n.type = "start"
  · simp [hs]
  · by_cases he : n.type = "end"
    · simp [he]
    · have h2 := hno n hn hs he
      simp only [Bool.and_eq_true, Bool.not_eq_true', beq_eq_false_iff_ne, ne_eq,
        decide_eq_true_eq, not_and]
      intro h3 h4
      exact h2 ⟨h3.2, h4⟩

theorem detect_eq_nil_parts (f : Flowchart) (h : f.detect_logic_gaps = []) :
    decisionGapsOf f = [] ∧ gapsFromEdges f.nodeIds f.edges [] = [] ∧
      orphanGapsOf f = [] := by
  unfold Flowchart.detect_logic_gaps at h
  rw [List.append_eq_nil, List.append_eq_nil] at h
  exact ⟨h.1.1, h.1.2, h.2⟩

theorem good_of_detect_nil (f : Flowchart) (h : f.detect_logic_gaps = []) :
    f.DecisionsBranched ∧ f.EdgesResolved ∧ f.OrphansMarked := by
  obtain ⟨h1, h2, h3⟩ := detect_eq_nil_parts f h
  refine ⟨?_, ?_, ?_⟩
  · intro n hn ht
    by_contra hlt
    have : n ∈ decisionGapsOf f :=
      (decisionGapsOf_mem_iff f n).mpr ⟨hn, ht, by omega⟩
    rw [h1] at this
    cases this
  · exact gapsFromEdges_nil_resolved _ _ h2
  · intro n hn hs he ho hi
    exfalso
    have : n ∈ orphanGapsOf f :=
      (orphanGapsOf_mem_iff f n).mpr ⟨hn, hs, he, ho, hi⟩
    rw [h3] at this
    cases this

theorem apply_of_detect_nil (f : Flowchart) (h : f.detect_logic_gaps = []) :
    f.apply_logic_gap_detection = f := by
  unfold Flowchart.apply_logic_gap_detection
  rw [h]
  rfl

theorem apply_of_detect_ne_nil (f : Flowchart) (h : f.detect_logic_gaps ≠ []) :
    f.apply_logic_gap_detection =
      ⟨(rewireEdges (insertGaps f.nodes f.nodeIds f.detect_logic_gaps).1
          (insertGaps f.nodes f.nodeIds f.detect_logic_gaps).2 f.edges).1,
       (rewireEdges (insertGaps f.nodes f.nodeIds f.detect_logic_gaps).1
          (insertGaps f.nodes f.nodeIds f.detect_logic_gaps).2 f.edges).2.2,
       f.subgraphs⟩ := by
  simp only [Flowchart.apply_logic_gap_detection]
  rw [if_neg h]

theorem gaps_cond (f : Flowchart) :
    ∀ g ∈ f.detect_logic_gaps, g.id ∈ f.nodeIds ∨ missingTyped g := by
  intro g hg
  unfold Flowchart.detect_logic_gaps at hg
  rcases List.mem_append.mp hg with hg' | hg'
  · rcases List.mem_append.mp hg' with hg'' | hg''
    · exact Or.inl (List.mem_map.mpr
        ⟨g, ((decisionGapsOf_mem_iff f g).mp hg'').1, rfl⟩)
    · obtain ⟨x, rfl, -⟩ := gapsFromEdges_members _ _ _ g hg''
      exact Or.inr (missingTyped_missingNode x)
  · exact Or.inl (List.mem_map.mpr ⟨g, ((orphanGapsOf_mem_iff f g).mp hg').1, rfl⟩)

theorem gaps_mem_nodes (f : Flowchart) :
    ∀ g ∈ f.detect_logic_gaps,
      g ∈ f.nodes ∨ ∃ x, g = missingNode x ∧ x ∉ f.nodeIds := by
  intro g hg
  unfold Flowchart.detect_logic_gaps at hg
  rcases List.mem_append.mp hg with hg' | hg'
  · rcases List.mem_append.mp hg' with hg'' | hg''
    · exact Or.inl ((decisionGapsOf_mem_iff f g).mp hg'').1
    · exact Or.inr (gapsFromEdges_members _ _ _ g hg'')
  · exact Or.inl ((orphanGapsOf_mem_iff f g).mp hg').1

theorem detect_eq_orphans (f : Flowchart) (hdec : f.DecisionsBranched)
    (hres : f.EdgesResolved) : f.detect_logic_gaps = orphanGapsOf f := by
  unfold Flowchart.detect_logic_gaps
  rw [decisionGapsOf_eq_nil f hdec,
    gapsFromEdges_eq_nil_of_resolved f.nodeIds f.edges [] hres]
  rfl

theorem apply_eq_self_of_good (f : Flowchart) (hnd : f.nodeIds.Nodup)
    (hdec : f.DecisionsBranched) (hres : f.EdgesResolved)
    (hmark : f.OrphansMarked) : f.apply_logic_gap_detection = f := by
  have hdet : f.detect_logic_gaps = orphanGapsOf f := detect_eq_orphans f hdec hres
  by_cases horph : orphanGapsOf f = []
  · exact apply_of_detect_nil f (hdet.trans horph)
  · have hne : f.detect_logic_gaps ≠ [] := by
      rw [hdet]
      exact horph
    rw [apply_of_detect_ne_nil f hne]
    have hins : insertGaps f.nodes f.nodeIds f.detect_logic_gaps =
        (f.nodes, f.nodeIds) := by
      apply insertGaps_eq_self
      intro g hg
      rw [hdet] at hg
      obtain ⟨hgmem, hgs, hge, hgo, hgi⟩ := (orphanGapsOf_mem_iff f g).mp hg
      refine ⟨List.mem_map.mpr ⟨g, hgmem, rfl⟩, ?_⟩
      intro n hn hid
      have hng : n = g :=
        List.inj_on_of_nodup_map hnd hn hgmem hid
      subst hng
      exact overwriteMissing_eq_self n (hmark n hn hgs hge hgo hgi)
    rw [hins]
    have hrw : rewireEdges f.nodes f.nodeIds f.edges =
        (f.nodes, f.nodeIds, f.edges.map (rewriteEdge f.nodeIds)) := by
      apply rewireEdges_of_resolved
      intro e he
      exact ⟨Or.inl (hres e he).1, Or.inl (hres e he).2⟩
    rw [hrw]
    have hmap : f.edges.map (rewriteEdge f.nodeIds) = f.edges := by
      have := List.map_congr_left (l := f.edges)
        (f := rewriteEdge f.nodeIds) (g := id)
        (fun e he => rewriteEdge_eq_self f.nodeIds e (hres e he).1 (hres e he).2)
      rw [this, List.map_id]
    rw [hmap]

theorem apply_good (f : Flowchart) (hnd : f.nodeIds.Nodup) :
    (f.apply_logic_gap_detection).nodeIds.Nodup ∧
    (f.apply_logic_gap_detection).EdgesResolved ∧
    (f.apply_logic_gap_detection).DecisionsBranched ∧
    (f.apply_logic_gap_detection).OrphansMarked := by
  by_cases hdet : f.detect_logic_gaps = []
  · rw [apply_of_detect_nil f hdet]
    obtain ⟨hdec, hres, hmark⟩ := good_of_detect_nil f hdet
    exact ⟨hnd, hres, hdec, hmark⟩
  · have hok0 : IdsOK f.nodes f.nodeIds := fun x => Iff.rfl
    rcases hng : insertGaps f.nodes f.nodeIds f.detect_logic_gaps with ⟨nodes1, ids1⟩
    have hok1 : IdsOK nodes1 ids1 := by
      have h := insertGaps_idsOK f.detect_logic_gaps f.nodes f.nodeIds hok0
      rw [hng] at h
      exact h
    have hnd1 : (nodes1.map (fun n => n.id)).Nodup := by
      have h := insertGaps_nodup f.detect_logic_gaps f.nodes f.nodeIds hok0 hnd
      rw [hng] at h
      exact h
    have hmono : ∀ x ∈ f.nodeIds, x ∈ ids1 := by
      intro x hx
      have h := insertGaps_ids_mono f.detect_logic_gaps f.nodes f.nodeIds x hx
      rw [hng] at h
      exact h
    have hgapids : ∀ g ∈ f.detect_logic_gaps, g.id ∈ ids1 := by
      intro g hg
      have h := insertGaps_gap_ids f.detect_logic_gaps f.nodes f.nodeIds g hg
      rw [hng] at h
      exact h
    have hmarked : ∀ g ∈ f.detect_logic_gaps, MarkedAt nodes1 g.id := by
      intro g hg
      have h := insertGaps_marks f.detect_logic_gaps f.nodes f.nodeIds hok0 hnd
        (gaps_cond f) g hg
      rw [hng] at h
      exact h
    have hmem1 : ∀ n ∈ nodes1, n ∈ f.nodes ∨ missingTyped n := by
      intro n hn
      have h := insertGaps_mem f.detect_logic_gaps f.nodes f.nodeIds n (by rw [hng]; exact hn)
      rcases h with h | h | h
      · exact Or.inl h
      · rcases gaps_mem_nodes f n h with h' | ⟨x, rfl, -⟩
        · exact Or.inl h'
        · exact Or.inr (missingTyped_missingNode x)
      · exact Or.inr h
    have hNA : ∀ e ∈ f.edges,
        (e.source ∈ ids1 ∨ ("missing_" ++ e.source) ∈ ids1) ∧
        (e.target ∈ ids1 ∨ ("missing_" ++ e.target) ∈ ids1) := by
      intro e he
      have hcov := gapsFromEdges_covers f.nodeIds f.edges [] e he
      constructor
      · by_cases hs : e.source ∈ f.nodeIds
        · exact Or.inl (hmono _ hs)
        · rcases hcov.1 hs with h' | h'
          · obtain ⟨g, hg, hgid⟩ := List.mem_map.mp h'
            have hgg : g ∈ f.detect_logic_gaps := by
              unfold Flowchart.detect_logic_gaps
              exact List.mem_append.mpr (Or.inl (List.mem_append.mpr (Or.inr hg)))
            rw [← hgid]
            exact Or.inr (hgapids g hgg)
          · cases h'
      · by_cases ht : e.target ∈ f.nodeIds
        · exact Or.inl (hmono _ ht)
        · rcases hcov.2 ht with h' | h'
          · obtain ⟨g, hg, hgid⟩ := List.mem_map.mp h'
            have hgg : g ∈ f.detect_logic_gaps := by
              unfold Flowchart.detect_logic_gaps
              exact List.mem_append.mpr (Or.inl (List.mem_append.mpr (Or.inr hg)))
            rw [← hgid]
            exact Or.inr (hgapids g hgg)
          · cases h'
    have happly : f.apply_logic_gap_detection =
        ⟨nodes1, f.edges.map (rewriteEdge ids1), f.subgraphs⟩ := by
      rw [apply_of_detect_ne_nil f hdet, hng]
      rw [rewireEdges_of_resolved f.edges nodes1 ids1 hNA]
    rw [happly]
    refine ⟨hnd1, ?_, ?_, ?_⟩
    · show ∀ e ∈ f.edges.map (rewriteEdge ids1),
        e.source ∈ nodes1.map (fun n => n.id) ∧ e.target ∈ nodes1.map (fun n => n.id)
      intro e' he'
      obtain ⟨e, he, rfl⟩ := List.mem_map.mp he'
      constructor
      · show (rewriteEdge ids1 e).source ∈ _
        unfold rewriteEdge
        by_cases hs : e.source ∈ ids1
        · rw [if_pos hs]
          exact (hok1 _).mp hs
        · rw [if_neg hs]
          rcases (hNA e he).1 with h' | h'
          · exact absurd h' hs
          · exact (hok1 _).mp h'
      · show (rewriteEdge ids1 e).target ∈ _
        unfold rewriteEdge
        by_cases ht : e.target ∈ ids1
        · rw [if_pos ht]
          exact (hok1 _).mp ht
        · rw [if_neg ht]
          rcases (hNA e he).2 with h' | h'
          · exact absurd h' ht
          · exact (hok1 _).mp h'
    · show ∀ n ∈ nodes1, n.type = "decision" →
        2 ≤ outCount (f.edges.map (rewriteEdge ids1)) n.id
      intro n hn ht
      have hnf : n ∈ f.nodes := by
        rcases hmem1 n hn with h | h
        · exact h
        · have h2 := h.1
          rw [ht] at h2
          exact absurd h2 (by decide)
      by_contra hlt
      have hx : n.id ∈ ids1 := (hok1 _).mpr (List.mem_map.mpr ⟨n, hn, rfl⟩)
      have hle := outCount_le_map_rewrite ids1 n.id hx f.edges
      have h1 : outCount f.edges n.id ≤ 1 := by omega
      have hgap : n ∈ f.detect_logic_gaps := by
        unfold Flowchart.detect_logic_gaps
        exact List.mem_append.mpr (Or.inl (List.mem_append.mpr
          (Or.inl ((decisionGapsOf_mem_iff f n).mpr ⟨hnf, ht, h1⟩))))
      have hmiss := (hmarked n hgap n hn rfl).1
      rw [ht] at hmiss
      exact absurd hmiss (by decide)
    · show ∀ n ∈ nodes1, n.type ≠ "start" → n.type ≠ "end" →
        outCount (f.edges.map (rewriteEdge ids1)) n.id = 0 →
        inCount (f.edges.map (rewriteEdge ids1)) n.id = 0 → missingTyped n
      intro n hn hs he ho hi
      rcases hmem1 n hn with hnf | hmiss
      · have hx : n.id ∈ ids1 := (hok1 _).mpr (List.mem_map.mpr ⟨n, hn, rfl⟩)
        have hleo := outCount_le_map_rewrite ids1 n.id hx f.edges
        have hlei := inCount_le_map_rewrite ids1 n.id hx f.edges
        have ho' : outCount f.edges n.id = 0 := by omega
        have hi' : inCount f.edges n.id = 0 := by omega
        have hgap : n ∈ f.detect_logic_gaps := by
          unfold Flowchart.detect_logic_gaps
          exact List.mem_append.mpr (Or.inr
            ((orphanGapsOf_mem_iff f n).mpr ⟨hnf, hs, he, ho', hi'⟩))
        exact hmarked n hgap n hn rfl
      · exact hmiss

/-- C1: self-repair is idempotent.  Applying `apply_logic_gap_detection` to
the already-repaired flowchart returns it unchanged, the gaps detected on
the repaired flowchart are not new (each is an already-present node already
marked `missing`), and a flowchart whose decision nodes all have at least
two exits, whose edges all resolve, and which has no non-anchor orphans
yields the empty gap list.  The unique-node-id hypothesis is guaranteed for
every constructed Flowchart by `validate_flow_structure`. -/
theorem C1_self_repair_idempotent (f : Flowchart) (hnd : f.nodeIds.Nodup) :
    f.apply_logic_gap_detection.apply_logic_gap_detection = f.apply_logic_gap_detection
    ∧ (∀ g ∈ f.apply_logic_gap_detection.detect_logic_gaps,
        g ∈ f.apply_logic_gap_detection.nodes ∧ missingTyped g)
    ∧ (f.DecisionsBranched → f.EdgesResolved → f.NoOrphans →
        f.detect_logic_gaps = []) := by
  obtain ⟨hnd1, hres1, hdec1, hmark1⟩ := apply_good f hnd
  refine ⟨apply_eq_self_of_good _ hnd1 hdec1 hres1 hmark1, ?_, ?_⟩
  · intro g hg
    rw [detect_eq_orphans _ hdec1 hres1] at hg
    obtain ⟨hmem, hs, he, ho, hi⟩ := (orphanGapsOf_mem_iff _ g).mp hg
    exact ⟨hmem, hmark1 g hmem hs he ho hi⟩
  · intro hdec hres hno
    unfold Flowchart.detect_logic_gaps
    rw [decisionGapsOf_eq_nil f hdec,
      gapsFromEdges_eq_nil_of_resolved f.nodeIds f.edges [] hres,
      orphanGapsOf_eq_nil f hno]
    rfl

/-- Witness for C1: repairing the flow with a dangling `ghost` edge twice
changes nothing after the first pass, and the clean chain has no gaps. -/
theorem C1_self_repair_idempotent_witness :
    danglingFlow.apply_logic_gap_detection.apply_logic_gap_detection =
      danglingFlow.apply_logic_gap_detection
    ∧ chainFlow.detect_logic_gaps = [] := by
  constructor
  · exact (C1_self_repair_idempotent danglingFlow (by decide)).1
  · apply (C1_self_repair_idempotent chainFlow (by decide)).2.2
    · unfold Flowchart.DecisionsBranched
      decide
    · unfold Flowchart.EdgesResolved
      decide
    · unfold Flowchart.NoOrphans
      decide

theorem apply_decomp (f : Flowchart) (hdet : f.detect_logic_gaps ≠ []) :
    ∃ nodes1 ids1,
      insertGaps f.nodes f.nodeIds f.detect_logic_gaps = (nodes1, ids1) ∧
      IdsOK nodes1 ids1 ∧
      (∀ x ∈ f.nodeIds, x ∈ ids1) ∧
      (∀ g ∈ f.detect_logic_gaps, g.id ∈ ids1) ∧
      (∀ e ∈ f.edges,
        (e.source ∈ ids1 ∨ ("missing_" ++ e.source) ∈ ids1) ∧
        (e.target ∈ ids1 ∨ ("missing_" ++ e.target) ∈ ids1)) ∧
      f.apply_logic_gap_detection =
        ⟨nodes1, f.edges.map (rewriteEdge ids1), f.subgraphs⟩ := by
  have hok0 : IdsOK f.nodes f.nodeIds := fun x => Iff.rfl
  rcases hng : insertGaps f.nodes f.nodeIds f.detect_logic_gaps with ⟨nodes1, ids1⟩
  have hok1 : IdsOK nodes1 ids1 := by
    have h := insertGaps_idsOK f.detect_logic_gaps f.nodes f.nodeIds hok0
    rw [hng] at h
    exact h
  have hmono : ∀ x ∈ f.nodeIds, x ∈ ids1 := by
    intro x hx
    have h := insertGaps_ids_mono f.detect_logic_gaps f.nodes f.nodeIds x hx
    rw [hng] at h
    exact h
  have hgapids : ∀ g ∈ f.detect_logic_gaps, g.id ∈ ids1 := by
    intro g hg
    have h := insertGaps_gap_ids f.detect_logic_gaps f.nodes f.nodeIds g hg
    rw [hng] at h
    exact h
  have hNA : ∀ e ∈ f.edges,
      (e.source ∈ ids1 ∨ ("missing_" ++ e.source) ∈ ids1) ∧
      (e.target ∈ ids1 ∨ ("missing_" ++ e.target) ∈ ids1) := by
    intro e he
    have hcov := gapsFromEdges_covers f.nodeIds f.edges [] e he
    constructor
    · by_cases hs : e.source ∈ f.nodeIds
      · exact Or.inl (hmono _ hs)
      · rcases hcov.1 hs with h' | h'
        · obtain ⟨g, hg, hgid⟩ := List.mem_map.mp h'
          have hgg : g ∈ f.detect_logic_gaps := by
            unfold Flowchart.detect_logic_gaps
            exact List.mem_append.mpr (Or.inl (List.mem_append.mpr (Or.inr hg)))
          rw [← hgid]
          exact Or.inr (hgapids g hgg)
        · cases h'
    · by_cases ht : e.target ∈ f.nodeIds
      · exact Or.inl (hmono _ ht)
      · rcases hcov.2 ht with h' | h'
        · obtain ⟨g, hg, hgid⟩ := List.mem_map.mp h'
          have hgg : g ∈ f.detect_logic_gaps := by
            unfold Flowchart.detect_logic_gaps
            exact List.mem_append.mpr (Or.inl (List.mem_append.mpr (Or.inr hg)))
          rw [← hgid]
          exact Or.inr (hgapids g hgg)
        · cases h'
  refine ⟨nodes1, ids1, rfl, hok1, hmono, hgapids, hNA, ?_⟩
  rw [apply_of_detect_ne_nil f hdet, hng]
  rw [rewireEdges_of_resolved f.edges nodes1 ids1 hNA]

theorem gap_unique_missing (f : Flowchart) (x : String)
    (hx : ("missing_" ++ x) ∉ f.nodeIds) :
    ∀ g' ∈ f.detect_logic_gaps, g'.id = "missing_" ++ x → g' = missingNode x := by
  intro g' hg' hid
  rcases gaps_mem_nodes f g' hg' with h | ⟨y, rfl, -⟩
  · exfalso
    apply hx
    rw [← hid]
    exact List.mem_map.mpr ⟨g', h, rfl⟩
  · have hyx : y = x := missingPrefix_inj y x hid
    rw [hyx]

theorem covers_missingNode_gap (f : Flowchart) (x : String)
    (hexists : ("missing_" ++ x) ∈
      (gapsFromEdges f.nodeIds f.edges []).map (fun g => g.id)) :
    missingNode x ∈ f.detect_logic_gaps := by
  obtain ⟨g, hg, hgid⟩ := List.mem_map.mp hexists
  obtain ⟨y, rfl, -⟩ := gapsFromEdges_members _ _ _ g hg
  have hyx : y = x := missingPrefix_inj y x hgid
  subst hyx
  unfold Flowchart.detect_logic_gaps
  exact List.mem_append.mpr (Or.inl (List.mem_append.mpr (Or.inr hg)))

/-- C3: after `apply_logic_gap_detection` every edge endpoint matches a node
id of the result; the edge list keeps its length and order, each endpoint
that resolves in the repaired flowchart is kept verbatim, and each endpoint
that does not resolve is rewritten to `missing_<id>`, with the synthesized
`missing` node (label `未定義: <id>`) added when no node with that id
already existed. -/
theorem C3_apply_resolves_edges (f : Flowchart) :
    (∀ e ∈ (f.apply_logic_gap_detection).edges,
      e.source ∈ (f.apply_logic_gap_detection).nodeIds ∧
      e.target ∈ (f.apply_logic_gap_detection).nodeIds)
    ∧ (f.apply_logic_gap_detection).edges.length = f.edges.length
    ∧ ∀ (i : Nat) (hi : i < f.edges.length),
        ∃ e', (f.apply_logic_gap_detection).edges[i]? = some e' ∧
          e'.label = (f.edges.get ⟨i, hi⟩).label ∧
          ((f.edges.get ⟨i, hi⟩).source ∈ (f.apply_logic_gap_detection).nodeIds →
            e'.source = (f.edges.get ⟨i, hi⟩).source) ∧
          ((f.edges.get ⟨i, hi⟩).source ∉ (f.apply_logic_gap_detection).nodeIds →
            e'.source = "missing_" ++ (f.edges.get ⟨i, hi⟩).source ∧
            (("missing_" ++ (f.edges.get ⟨i, hi⟩).source) ∉ f.nodeIds →
              missingNode (f.edges.get ⟨i, hi⟩).source ∈
                (f.apply_logic_gap_detection).nodes)) ∧
          ((f.edges.get ⟨i, hi⟩).target ∈ (f.apply_logic_gap_detection).nodeIds →
            e'.target = (f.edges.get ⟨i, hi⟩).target) ∧
          ((f.edges.get ⟨i, hi⟩).target ∉ (f.apply_logic_gap_detection).nodeIds →
            e'.target = "missing_" ++ (f.edges.get ⟨i, hi⟩).target ∧
            (("missing_" ++ (f.edges.get ⟨i, hi⟩).target) ∉ f.nodeIds →
              missingNode (f.edges.get ⟨i, hi⟩).target ∈
                (f.apply_logic_gap_detection).nodes)) := by
  by_cases hdet : f.detect_logic_gaps = []
  · have happ := apply_of_detect_nil f hdet
    have hres := (good_of_detect_nil f hdet).2.1
    rw [happ]
    refine ⟨hres, rfl, ?_⟩
    intro i hi
    have hmem : f.edges.get ⟨i, hi⟩ ∈ f.edges := List.get_mem f.edges i hi
    refine ⟨f.edges.get ⟨i, hi⟩, List.getElem?_eq_getElem hi, rfl, ?_, ?_, ?_, ?_⟩
    · intro _
      rfl
    · intro hsrc
      exact absurd (hres _ hmem).1 hsrc
    · intro _
      rfl
    · intro htgt
      exact absurd (hres _ hmem).2 htgt
  · obtain ⟨nodes1, ids1, hng, hok1, hmono, hgapids, hNA, happly⟩ := apply_decomp f hdet
    have hiff : ∀ x, x ∈ (f.apply_logic_gap_detection).nodeIds ↔ x ∈ ids1 := by
      intro x
      rw [happly]
      exact (hok1 x).symm
    have haddMissing : ∀ x, ("missing_" ++ x) ∉ f.nodeIds →
        missingNode x ∈ f.detect_logic_gaps →
        missingNode x ∈ (f.apply_logic_gap_detection).nodes := by
      intro x hxf hgap
      have h := insertGaps_adds_gap f.detect_logic_gaps f.nodes f.nodeIds
        (missingNode x) (fun y => Iff.rfl) hgap
        (overwriteMissing_eq_self _ (missingTyped_missingNode x)) hxf
        (gap_unique_missing f x hxf)
      rw [hng] at h
      rw [happly]
      exact h
    refine ⟨?_, ?_, ?_⟩
    · rw [happly]
      intro e' he'
      obtain ⟨e, he, rfl⟩ := List.mem_map.mp he'
      have hiff' : ∀ x, x ∈
          (Flowchart.mk nodes1 (f.edges.map (rewriteEdge ids1)) f.subgraphs).nodeIds
            ↔ x ∈ ids1 := fun x => (hok1 x).symm
      constructor
      · rw [hiff']
        unfold rewriteEdge
        by_cases hs : e.source ∈ ids1
        · rw [if_pos hs]
          exact hs
        · rw [if_neg hs]
          rcases (hNA e he).1 with h' | h'
          · exact absurd h' hs
          · exact h'
      · rw [hiff']
        unfold rewriteEdge
        by_cases ht : e.target ∈ ids1
        · rw [if_pos ht]
          exact ht
        · rw [if_neg ht]
          rcases (hNA e he).2 with h' | h'
          · exact absurd h' ht
          · exact h'
    · rw [happly]
      exact List.length_map _ _
    · intro i hi
      have hmem : f.edges.get ⟨i, hi⟩ ∈ f.edges := List.get_mem f.edges i hi
      have hee : f.edges[i]? = some (f.edges.get ⟨i, hi⟩) := List.getElem?_eq_getElem hi
      refine ⟨rewriteEdge ids1 (f.edges.get ⟨i, hi⟩), ?_, rfl, ?_, ?_, ?_, ?_⟩
      · rw [happly]
        show (f.edges.map (rewriteEdge ids1))[i]? = _
        rw [List.getElem?_map, hee]
        rfl
      · intro hsrc
        rw [hiff] at hsrc
        unfold rewriteEdge
        rw [if_pos hsrc]
      · intro hsrc
        rw [hiff] at hsrc
        constructor
        · unfold rewriteEdge
          rw [if_neg hsrc]
        · intro hxf
          apply haddMissing _ hxf
          apply covers_missingNode_gap
          have hnotf : (f.edges.get ⟨i, hi⟩).source ∉ f.nodeIds := by
            intro hin
            exact hsrc (hmono _ hin)
          rcases (gapsFromEdges_covers f.nodeIds f.edges [] _ hmem).1 hnotf with h' | h'
          · exact h'
          · cases h'
      · intro htgt
        rw [hiff] at htgt
        unfold rewriteEdge
        rw [if_pos htgt]
      · intro htgt
        rw [hiff] at htgt
        constructor
        · unfold rewriteEdge
          rw [if_neg htgt]
        · intro hxf
          apply haddMissing _ hxf
          apply covers_missingNode_gap
          have hnotf : (f.edges.get ⟨i, hi⟩).target ∉ f.nodeIds := by
            intro hin
            exact htgt (hmono _ hin)
          rcases (gapsFromEdges_covers f.nodeIds f.edges [] _ hmem).2 hnotf with h' | h'
          · exact h'
          · cases h'

/-- Witness for C3: on the flow with the dangling `ghost` target, the first
repaired edge points at `missing_ghost`, which is a node of the result. -/
theorem C3_apply_resolves_edges_witness :
    ∃ e', (danglingFlow.apply_logic_gap_detection).edges[0]? = some e' ∧
      e'.label = (danglingFlow.edges.get ⟨0, by decide⟩).label ∧
      ((danglingFlow.edges.get ⟨0, by decide⟩).source ∈
          (danglingFlow.apply_logic_gap_detection).nodeIds →
        e'.source = (danglingFlow.edges.get ⟨0, by decide⟩).source) ∧
      ((danglingFlow.edges.get ⟨0, by decide⟩).source ∉
          (danglingFlow.apply_logic_gap_detection).nodeIds →
        e'.source = "missing_" ++ (danglingFlow.edges.get ⟨0, by decide⟩).source ∧
        (("missing_" ++ (danglingFlow.edges.get ⟨0, by decide⟩).source) ∉
            danglingFlow.nodeIds →
          missingNode (danglingFlow.edges.get ⟨0, by decide⟩).source ∈
            (danglingFlow.apply_logic_gap_detection).nodes)) ∧
      ((danglingFlow.edges.get ⟨0, by decide⟩).target ∈
          (danglingFlow.apply_logic_gap_detection).nodeIds →
        e'.target = (danglingFlow.edges.get ⟨0, by decide⟩).target) ∧
      ((danglingFlow.edges.get ⟨0, by decide⟩).target ∉
          (danglingFlow.apply_logic_gap_detection).nodeIds →
        e'.target = "missing_" ++ (danglingFlow.edges.get ⟨0, by decide⟩).target ∧
        (("missing_" ++ (danglingFlow.edges.get ⟨0, by decide⟩).target) ∉
            danglingFlow.nodeIds →
          missingNode (danglingFlow.edges.get ⟨0, by decide⟩).target ∈
            (danglingFlow.apply_logic_gap_detection).nodes)) :=
  (C3_apply_resolves_edges danglingFlow).2.2 0 (by decide)

end IdeaExplain
